import Mathlib

/-!
# Verification of the utho-go HTTP client core

A shallow embedding of the shared HTTP transport of the utho-go client
library (`utho/utho.go`, the full transport variant, together with the
resource layer `utho/api_key.go`), with theorems checking the library's
specification against the embedded code.

Modelling conventions:

* Go byte strings are modelled as `String` / `List Char`; the sources only
  manipulate valid text.
* `encoding/json` is modelled by an executable encoder and parser over a
  `Json` value type.  JSON numbers are modelled as integers: every
  request/response struct of this repository carries only string and
  integer fields, so number syntax with a fraction or exponent is outside
  the model (the parser rejects it, as it rejects other bodies the
  repository never produces).  Go's rejection of leading zeros in number
  literals is not modelled.
* `net/url` is modelled by an executable parser, resolver and printer
  following the control flow of `url.Parse`, `resolvePath`,
  `URL.ResolveReference` and `URL.String`.  Simplifications (documented at
  each definition): the decoded path is stored verbatim rather than
  percent-decoded, `ForceQuery`/`OmitHost`/userinfo state is not tracked,
  and bracketed IPv6 hosts are outside the model.  Percent-escape
  validation — the error path the claims exercise — is modelled.
* Fallible Go functions returning `(T, error)` become `Except String T`;
  nil pointers become `Option`; the nil-pointer dereference in `Do` is an
  explicit `panicked` outcome.
-/

/-! ## JSON values

`encoding/json` data model, restricted as described in the header.
`arr`/`obj` use the mutually inductive list types so that all encoder and
decoder functions are structurally recursive (hence kernel-computable).
-/

mutual

inductive Json where
  | null
  | bool (b : Bool)
  | num (n : Int)
  | str (s : String)
  | arr (elems : JsonList)
  | obj (fields : JsonFields)
deriving Repr

inductive JsonList where
  | nil
  | cons (hd : Json) (tl : JsonList)
deriving Repr

inductive JsonFields where
  | nil
  | cons (key : String) (val : Json) (tl : JsonFields)
deriving Repr

end

/-! ## JSON encoding

Models `json.Encoder` with compact output (the encoder in `NewRequest`
adds no indentation).  `escapeHTML` corresponds to the encoder state set
by `SetEscapeHTML`; `NewRequest` sets it to `false`.
-/

/-- Lowercase hexadecimal digit, as written by `encoding/json`. -/
def hexDigit (n : Nat) : Char :=
  if n < 10 then Char.ofNat (48 + n) else Char.ofNat (87 + n)

/-- Decimal digit character. -/
def digitChar (n : Nat) : Char :=
  Char.ofNat (48 + n)

/-- Decimal digits of `n`, most significant first; models `strconv`
formatting as used by `encoding/json` for integer values.  The fuel is
`n + 1`, always sufficient (each step divides by ten). -/
def natDigitsGo : Nat → Nat → List Char → List Char
  | 0, _, acc => acc
  | f + 1, n, acc =>
    if n < 10 then digitChar n :: acc
    else natDigitsGo f (n / 10) (digitChar (n % 10) :: acc)

/-- Decimal digit string of a natural number. -/
def natDigits (n : Nat) : List Char :=
  natDigitsGo (n + 1) n []

/-- JSON integer literal. -/
def encInt (n : Int) : List Char :=
  if n < 0 then '-' :: natDigits n.natAbs else natDigits n.natAbs

/-- One character of a JSON string literal, as Go's `appendString` writes
it: `"` and `\` and the controls are escaped, `<` `>` `&` only when
`escapeHTML` is set, U+2028/U+2029 always, everything else verbatim. -/
def encChar (escapeHTML : Bool) (c : Char) : List Char :=
  if c = '"' then ['\\', '"']
  else if c = '\\' then ['\\', '\\']
  else if escapeHTML ∧ (c = '<' ∨ c = '>' ∨ c = '&') then
    ['\\', 'u', '0', '0', hexDigit (c.toNat / 16), hexDigit (c.toNat % 16)]
  else if c = '\n' then ['\\', 'n']
  else if c = '\r' then ['\\', 'r']
  else if c = '\t' then ['\\', 't']
  else if c.toNat < 0x20 then
    ['\\', 'u', '0', '0', hexDigit (c.toNat / 16), hexDigit (c.toNat % 16)]
  else if c.toNat = 0x2028 ∨ c.toNat = 0x2029 then
    ['\\', 'u', '2', '0', '2', hexDigit (c.toNat % 16)]
  else [c]

/-- A JSON string literal, quotes included. -/
def encString (escapeHTML : Bool) (s : String) : List Char :=
  '"' :: s.data.flatMap (encChar escapeHTML) ++ ['"']

/-- Separator written after an element when more elements follow. -/
def elemsSep : JsonList → List Char
  | .nil => []
  | .cons _ _ => [',']

/-- Separator written after a field when more fields follow. -/
def fieldsSep : JsonFields → List Char
  | .nil => []
  | .cons _ _ _ => [',']

mutual

/-- Compact JSON encoding of a value (Go `json.Marshal` / `Encoder` without
the trailing newline; object fields are written in struct-field order, as
Go does for structs). -/
def encVal (escapeHTML : Bool) : Json → List Char
  | .null => "null".data
  | .bool true => "true".data
  | .bool false => "false".data
  | .num n => encInt n
  | .str s => encString escapeHTML s
  | .arr xs => '[' :: encElems escapeHTML xs ++ [']']
  | .obj fs => '{' :: encFields escapeHTML fs ++ ['}']

/-- Comma-separated encodings of the element list (brackets are written by
`encVal`). -/
def encElems (escapeHTML : Bool) : JsonList → List Char
  | .nil => []
  | .cons x tl => encVal escapeHTML x ++ elemsSep tl ++ encElems escapeHTML tl

/-- Comma-separated `"key":value` encodings of the field list. -/
def encFields (escapeHTML : Bool) : JsonFields → List Char
  | .nil => []
  | .cons k v tl =>
    encString escapeHTML k ++ ':' :: encVal escapeHTML v ++ fieldsSep tl ++ encFields escapeHTML tl

end

/-! ## JSON parsing

Models `json.Unmarshal`'s scanner on the fragment of JSON described in the
header.  The recursion over nested values is fuelled; the top level
supplies fuel exceeding the input length, which is always sufficient
(`jfuel_le_length` below).
-/

/-- JSON inter-token whitespace (Go `isSpace`). -/
def isWs (c : Char) : Bool :=
  c = ' ' ∨ c = '\t' ∨ c = '\n' ∨ c = '\r'

/-- Skip inter-token whitespace. -/
def skipWs : List Char → List Char
  | [] => []
  | c :: cs => if isWs c then skipWs cs else c :: cs

/-- Value of a hexadecimal digit. -/
def hexVal? (c : Char) : Option Nat :=
  if '0' ≤ c ∧ c ≤ '9' then some (c.toNat - 48)
  else if 'a' ≤ c ∧ c ≤ 'f' then some (c.toNat - 87)
  else if 'A' ≤ c ∧ c ≤ 'F' then some (c.toNat - 55)
  else none

/-- Longest digit run at the head of the input. -/
def spanDigits : List Char → List Char × List Char
  | [] => ([], [])
  | c :: cs =>
    if c.isDigit then
      let p := spanDigits cs
      (c :: p.1, p.2)
    else ([], c :: cs)

/-- Accumulate decimal digits into a number. -/
def digitsToNat (acc : Nat) : List Char → Nat
  | [] => acc
  | c :: cs => digitsToNat (acc * 10 + (c.toNat - 48)) cs

/-- Body of a JSON string literal after the opening quote, following Go's
`unquote`: the simple escapes, `\uXXXX` escapes, and a hard error on raw
control characters.  Returns the decoded characters and the input after
the closing quote.  Model restriction: Go additionally combines adjacent
`\uXXXX` surrogate pairs; here every escaped surrogate decodes to U+FFFD
(Go's behaviour for unpaired surrogates).  The repository's encoder never
emits surrogate escapes, and no claim involves them. -/
def parseStringBody : List Char → Option (List Char × List Char)
  | [] => none
  | '"' :: r => some ([], r)
  | '\\' :: 'u' :: h1 :: h2 :: h3 :: h4 :: r2 =>
    match hexVal? h1, hexVal? h2, hexVal? h3, hexVal? h4 with
    | some a, some b, some c3, some d =>
      let n := ((a * 16 + b) * 16 + c3) * 16 + d
      if 0xD800 ≤ n ∧ n < 0xE000 then (parseStringBody r2).map (fun p => ('\uFFFD' :: p.1, p.2))
      else (parseStringBody r2).map (fun p => (Char.ofNat n :: p.1, p.2))
    | _, _, _, _ => none
  | '\\' :: e :: r1 =>
    if e = '"' then (parseStringBody r1).map (fun p => ('"' :: p.1, p.2))
    else if e = '\\' then (parseStringBody r1).map (fun p => ('\\' :: p.1, p.2))
    else if e = '/' then (parseStringBody r1).map (fun p => ('/' :: p.1, p.2))
    else if e = 'b' then (parseStringBody r1).map (fun p => ('\x08' :: p.1, p.2))
    else if e = 'f' then (parseStringBody r1).map (fun p => ('\x0c' :: p.1, p.2))
    else if e = 'n' then (parseStringBody r1).map (fun p => ('\n' :: p.1, p.2))
    else if e = 'r' then (parseStringBody r1).map (fun p => ('\r' :: p.1, p.2))
    else if e = 't' then (parseStringBody r1).map (fun p => ('\t' :: p.1, p.2))
    else none
  | c :: r => if c.toNat < 0x20 then none else (parseStringBody r).map (fun p => (c :: p.1, p.2))

mutual

/-- Parse one JSON value (leading whitespace already skipped by the
caller).  Returns the value and the unconsumed input. -/
def parseVal : Nat → List Char → Option (Json × List Char)
  | 0, _ => none
  | f + 1, cs =>
    match cs with
    | [] => none
    | c :: r =>
      if c = 'n' then
        match r with
        | 'u' :: 'l' :: 'l' :: r2 => some (.null, r2)
        | _ => none
      else if c = 't' then
        match r with
        | 'r' :: 'u' :: 'e' :: r2 => some (.bool true, r2)
        | _ => none
      else if c = 'f' then
        match r with
        | 'a' :: 'l' :: 's' :: 'e' :: r2 => some (.bool false, r2)
        | _ => none
      else if c = '"' then
        (parseStringBody r).map (fun p => (.str (String.mk p.1), p.2))
      else if c = '[' then
        let r1 := skipWs r
        if r1.head? = some ']' then some (.arr .nil, r1.tail)
        else (parseElems f r1).map (fun p => (.arr p.1, p.2))
      else if c = '{' then
        let r1 := skipWs r
        if r1.head? = some '}' then some (.obj .nil, r1.tail)
        else (parseFields f r1).map (fun p => (.obj p.1, p.2))
      else if c = '-' then
        match spanDigits r with
        | ([], _) => none
        | (ds, r2) => some (.num (-(digitsToNat 0 ds : Int)), r2)
      else if c.isDigit then
        match spanDigits (c :: r) with
        | (ds, r2) => some (.num (digitsToNat 0 ds : Int), r2)
      else none

/-- Parse the elements of a non-empty array, consuming the closing
bracket. -/
def parseElems : Nat → List Char → Option (JsonList × List Char)
  | 0, _ => none
  | f + 1, cs =>
    match parseVal f cs with
    | none => none
    | some (j, r) =>
      match skipWs r with
      | ',' :: r2 => (parseElems f (skipWs r2)).map (fun p => (.cons j p.1, p.2))
      | ']' :: r2 => some (.cons j .nil, r2)
      | _ => none

/-- Parse the fields of a non-empty object, consuming the closing
brace. -/
def parseFields : Nat → List Char → Option (JsonFields × List Char)
  | 0, _ => none
  | f + 1, cs =>
    match cs with
    | '"' :: r =>
      match parseStringBody r with
      | none => none
      | some (k, r1) =>
        match skipWs r1 with
        | ':' :: r2 =>
          match parseVal f (skipWs r2) with
          | none => none
          | some (v, r3) =>
            match skipWs r3 with
            | ',' :: r4 => (parseFields f (skipWs r4)).map (fun p => (.cons (String.mk k) v p.1, p.2))
            | '}' :: r4 => some (.cons (String.mk k) v .nil, r4)
            | _ => none
        | _ => none
    | _ => none

end

/-- `json.Unmarshal`'s top level: exactly one value, surrounded only by
whitespace. -/
def parseJsonChars (cs : List Char) : Option Json :=
  match parseVal (cs.length + 1) (skipWs cs) with
  | some (j, r) => if skipWs r = [] then some j else none
  | none => none

/-- Parse a JSON document from a string. -/
def parseJson (s : String) : Option Json :=
  parseJsonChars s.data

/-! ## URLs

Model of the `net/url` subset the client uses: `url.Parse`,
`URL.Parse`/`ResolveReference` with `resolvePath`, and `URL.String`.
Simplifications (beyond the header's): the path is stored as written
(Go stores the percent-decoded path plus `RawPath`; no claim depends on
decoding), `ForceQuery` and userinfo are not tracked, and bracketed IPv6
hosts are outside the model.  Percent-escape validation, the control
character check, the scheme grammar and the colon-in-first-segment check
are modelled, since the error paths matter to the claims.
-/

structure GoURL where
  scheme : String
  opaquePart : String
  host : String
  path : String
  rawQuery : String
  fragment : String
deriving Repr, DecidableEq, Inhabited

deriving instance DecidableEq for Except

/-- ASCII lower-casing, as Go applies to schemes. -/
def asciiLower (c : Char) : Char :=
  if 'A' ≤ c ∧ c ≤ 'Z' then Char.ofNat (c.toNat + 32) else c

/-- ASCII lower-casing of a whole string (the case-folding Go applies when
matching JSON keys to struct tags). -/
def strLower (s : String) : String :=
  String.mk (s.data.map asciiLower)

/-- Split at the first occurrence of `c`; the separator is dropped.
Returns `none` for the second component when `c` does not occur. -/
def splitAtChar (c : Char) : List Char → List Char × Option (List Char)
  | [] => ([], none)
  | x :: xs =>
    if x = c then ([], some xs)
    else
      let p := splitAtChar c xs
      (x :: p.1, p.2)

/-- Hexadecimal digit test (Go `ishex`). -/
def isHexChar (c : Char) : Bool :=
  ('0' ≤ c ∧ c ≤ '9') ∨ ('a' ≤ c ∧ c ≤ 'f') ∨ ('A' ≤ c ∧ c ≤ 'F')

/-- Every `%` begins a valid two-hex-digit escape (the validation performed
by Go's `unescape`, which rejects e.g. `%zz` with `invalid URL escape`). -/
def validEscapes : List Char → Bool
  | [] => true
  | c :: rest =>
    if c = '%' then
      match rest with
      | h1 :: h2 :: t => isHexChar h1 && isHexChar h2 && validEscapes t
      | _ => false
    else validEscapes rest

/-- Go `stringContainsCTLByte`. -/
def containsCTL (cs : List Char) : Bool :=
  cs.any (fun c => c.toNat < 0x20 ∨ c.toNat = 0x7f)

/-- Characters allowed in a scheme after the first (RFC 3986 §3.1, as in
Go's `getScheme`). -/
def isSchemeChar (c : Char) : Bool :=
  c.isAlpha ∨ c.isDigit ∨ c = '+' ∨ c = '-' ∨ c = '.'

/-- Go `getScheme`: scan for `:`; a leading `:` is an error, a character
outside the scheme grammar before `:` means the URL has no scheme.
Returns the lower-cased scheme and the remainder. -/
def getSchemeAux (orig : List Char) : List Char → List Char → Except String (List Char × List Char)
  | [], _ => .ok ([], orig)
  | c :: cs, acc =>
    if c = ':' then
      if acc = [] then .error "missing protocol scheme"
      else .ok ((acc.reverse).map asciiLower, cs)
    else if (if acc = [] then c.isAlpha else isSchemeChar c) then
      getSchemeAux orig cs (c :: acc)
    else .ok ([], orig)

/-- Go `validOptionalPort`: empty, or `:` followed by digits only. -/
def validOptionalPort : List Char → Bool
  | [] => true
  | c :: cs => c = ':' && cs.all (·.isDigit)

/-- Index of the last occurrence of `c`, if any. -/
def lastIdxOf (c : Char) (l : List Char) : Option Nat :=
  (l.reverse.findIdx? (· = c)).map (fun k => l.length - 1 - k)

/-- Go `parseAuthority`/`parseHost`, simplified per the section header:
split userinfo at the last `@`, validate escapes in both parts, and check
the port after the last `:` of the host. -/
def parseAuthority (authority : List Char) : Except String (List Char) :=
  let host :=
    match lastIdxOf '@' authority with
    | some i => authority.drop (i + 1)
    | none => authority
  let userinfo :=
    match lastIdxOf '@' authority with
    | some i => authority.take i
    | none => []
  if ¬ validEscapes userinfo then .error "invalid userinfo"
  else
    match lastIdxOf ':' host with
    | some i =>
      if validOptionalPort (host.drop i) then
        if validEscapes host then .ok host else .error "invalid URL escape"
      else .error "invalid port"
    | none =>
      if validEscapes host then .ok host else .error "invalid URL escape"

/-- Apply the fragment cut off by `url.Parse` before `parse` ran
(`setFragment`: escape validation; the fragment is stored, an empty
fragment is dropped). -/
def setFragmentModel (u : GoURL) : Option (List Char) → Except String GoURL
  | none => .ok u
  | some f =>
    if validEscapes f then .ok { u with fragment := String.mk f }
    else .error "invalid URL escape"

/-- Model of `url.Parse` (`parse` with `viaRequest = false`, wrapped with
the fragment split).  The control-flow mirrors the Go source: control
character check, `*` special case, scheme, query cut, the opaque /
rootless branch with the colon-in-first-segment error, the `//` authority
branch, and path escape validation. -/
def urlParseChars (rawURL : List Char) : Except String GoURL :=
  let cut := splitAtChar '#' rawURL
  let beforeFrag := cut.1
  let frag? := cut.2
  if containsCTL beforeFrag then .error "net/url: invalid control character in URL"
  else if beforeFrag = ['*'] then
    setFragmentModel
      { scheme := "", opaquePart := "", host := "", path := "*", rawQuery := "", fragment := "" }
      frag?
  else
    match getSchemeAux beforeFrag beforeFrag [] with
    | .error e => .error e
    | .ok (schemeChars, afterScheme) =>
      let qcut := splitAtChar '?' afterScheme
      let rest := qcut.1
      let rawQuery := (qcut.2).getD []
      if rest.head? ≠ some '/' then
        if schemeChars ≠ [] then
          setFragmentModel
            { scheme := String.mk schemeChars, opaquePart := String.mk rest, host := "",
              path := "", rawQuery := String.mk rawQuery, fragment := "" } frag?
        else
          let seg := (splitAtChar '/' rest).1
          if seg.contains ':' then .error "first path segment in URL cannot contain colon"
          else if validEscapes rest then
            setFragmentModel
              { scheme := "", opaquePart := "", host := "", path := String.mk rest,
                rawQuery := String.mk rawQuery, fragment := "" } frag?
          else .error "invalid URL escape"
      else
        let hasAuthority :=
          rest.take 2 = ['/', '/'] ∧ (schemeChars ≠ [] ∨ rest.take 3 ≠ ['/', '/', '/'])
        if hasAuthority then
          let afterSlashes := rest.drop 2
          let authority :=
            match (afterSlashes.findIdx? (· = '/')) with
            | some i => afterSlashes.take i
            | none => afterSlashes
          let pathChars :=
            match (afterSlashes.findIdx? (· = '/')) with
            | some i => afterSlashes.drop i
            | none => []
          match parseAuthority authority with
          | .error e => .error e
          | .ok host =>
            if validEscapes pathChars then
              setFragmentModel
                { scheme := String.mk schemeChars, opaquePart := "", host := String.mk host,
                  path := String.mk pathChars, rawQuery := String.mk rawQuery, fragment := "" }
                frag?
            else .error "invalid URL escape"
        else
          if validEscapes rest then
            setFragmentModel
              { scheme := String.mk schemeChars, opaquePart := "", host := "",
                path := String.mk rest, rawQuery := String.mk rawQuery, fragment := "" } frag?
          else .error "invalid URL escape"

/-- `url.Parse` on a string. -/
def urlParse (s : String) : Except String GoURL :=
  urlParseChars s.data

/-- The segment loop of Go's `resolvePath`: `dst` starts as `"/"`; `.` is
dropped, `..` truncates to the previous `/`, other segments are written
with a separating `/` unless `first` is set. -/
def resolveLoop : List (List Char) → List Char → Bool → List Char
  | [], dst, _ => dst
  | e :: es, dst, first =>
    if e = ['.'] then resolveLoop es dst false
    else if e = ['.', '.'] then
      let str := dst.drop 1
      match lastIdxOf '/' str with
      | none => resolveLoop es ['/'] true
      | some i => resolveLoop es ('/' :: str.take i) first
    else resolveLoop es (dst ++ (if first then [] else ['/']) ++ e) false

/-- Split on a character, `String.splitOn`-style: the result is never
empty, and separators delimit (possibly empty) segments. -/
def splitSegs (c : Char) : List Char → List (List Char)
  | [] => [[]]
  | x :: xs =>
    if x = c then [] :: splitSegs c xs
    else
      match splitSegs c xs with
      | s :: ss => (x :: s) :: ss
      | [] => [[x]]

/-- Go `resolvePath(base, ref)`: RFC 3986 merge and dot-segment removal,
ported operation for operation (including the trailing-slash handling for
a final `.`/`..` and the collapse of a doubled leading slash). -/
def resolvePathChars (base ref : List Char) : List Char :=
  let full :=
    if ref = [] then base
    else if ref.head? = some '/' then ref
    else
      match lastIdxOf '/' base with
      | none => ref
      | some i => base.take (i + 1) ++ ref
  if full = [] then []
  else
    let segs := splitSegs '/' full
    let dst := resolveLoop segs ['/'] true
    let lastSeg := (segs.getLast?).getD []
    let dst2 := if lastSeg = ['.'] ∨ lastSeg = ['.', '.'] then dst ++ ['/'] else dst
    if dst2.length > 1 ∧ dst2.get? 1 = some '/' then dst2.drop 1 else dst2

/-- `resolvePath` on strings. -/
def resolvePathGo (base ref : String) : String :=
  String.mk (resolvePathChars base.data ref.data)

/-- Go `URL.ResolveReference` (userinfo omitted per the model header). -/
def resolveReference (base ref : GoURL) : GoURL :=
  if ref.scheme ≠ "" ∨ ref.host ≠ "" then
    { ref with
      scheme := if ref.scheme ≠ "" then ref.scheme else base.scheme,
      path := resolvePathGo ref.path "" }
  else if ref.opaquePart ≠ "" then
    { ref with scheme := base.scheme, host := "", path := "" }
  else
    { scheme := base.scheme, opaquePart := "", host := base.host,
      path := resolvePathGo base.path ref.path,
      rawQuery := if ref.path = "" ∧ ref.rawQuery = "" then base.rawQuery else ref.rawQuery,
      fragment :=
        if ref.path = "" ∧ ref.rawQuery = "" ∧ ref.fragment = "" then base.fragment
        else ref.fragment }

/-- Go `URL.String` (with the model's verbatim path standing in for
`EscapedPath`, and without `ForceQuery`/`OmitHost`/userinfo). -/
def urlString (u : GoURL) : String :=
  (if u.scheme ≠ "" then u.scheme ++ ":" else "")
    ++ (if u.opaquePart ≠ "" then u.opaquePart
        else
          (if u.scheme ≠ "" ∨ u.host ≠ "" then
            (if u.host ≠ "" ∨ u.path ≠ "" then "//" else "") ++ u.host
          else "")
            ++ (if u.path ≠ "" ∧ u.path.data.head? ≠ some '/' ∧ u.host ≠ "" then "/" else "")
            ++ u.path)
    ++ (if u.rawQuery ≠ "" then "?" ++ u.rawQuery else "")
    ++ (if u.fragment ≠ "" then "#" ++ u.fragment else "")

/-! ## The transport core (`utho/utho.go`, full transport variant)

`src/unnamed/part_001` is the transport the specification describes (it
sets the JSON headers and the 300-second default timeout, and wires all
eighteen resource services); `src/utho/utho.go` is an earlier variant of
the same file whose differences are noted where they matter.  The
eighteen per-resource accessors are plumbing (each returns a view on the
same transport) and are not needed by any claim.
-/

def BaseUrl : String := "https://api.utho.com/v2/"

/-- The shape of `*http.Client` as configured here: only the timeout is
observable in this model. -/
structure HTTPClientConfig where
  timeoutSeconds : Nat
deriving Repr, DecidableEq

/-- `defaultHTTPClient` of the full transport: `&http.Client{Timeout: time.Second * 300}`. -/
def defaultHTTPClient : HTTPClientConfig :=
  { timeoutSeconds := 300 }

/-- `defaultHTTPClient` of the earlier variant in `src/utho/utho.go`:
`&http.Client{Timeout: time.Second * 5}`. -/
def defaultHTTPClientLegacy : HTTPClientConfig :=
  { timeoutSeconds := 5 }

/-- Go `strings.HasSuffix(s, "/")`. -/
def hasEndingSlash (s : String) : Bool :=
  s.data.getLast? = some '/'

/-- `toURLWithEndingSlash`: parse the base endpoint and append `/` to the
path when missing. -/
def toURLWithEndingSlash (u : String) : Except String GoURL :=
  match urlParse u with
  | .error e => .error e
  | .ok baseURL =>
    if ¬ hasEndingSlash baseURL.path then .ok { baseURL with path := baseURL.path ++ "/" }
    else .ok baseURL

/-- The `client` struct fields used by the transport. -/
structure ClientStruct where
  httpClient : HTTPClientConfig
  baseURL : GoURL
  token : String
deriving Repr, DecidableEq

/-- Apply functional options in order, aborting on the first failure (the
loop in `NewClient`). -/
def applyOptions : ClientStruct → List (ClientStruct → Except String ClientStruct) → Except String ClientStruct
  | c, [] => .ok c
  | c, o :: os =>
    match o c with
    | .error e => .error e
    | .ok c2 => applyOptions c2 os

/-- `NewClient`: reject an empty token, normalize the base URL, build the
client, apply options.  (The subsequent wiring of the per-resource
accessor views cannot fail and is omitted.) -/
def NewClient (token : String) (options : List (ClientStruct → Except String ClientStruct)) : Except String ClientStruct :=
  if token = "" then .error "you must provide an API token"
  else
    match toURLWithEndingSlash BaseUrl with
    | .error e => .error e
    | .ok defaultBaseURL =>
      applyOptions
        { httpClient := defaultHTTPClient, baseURL := defaultBaseURL, token := token } options

/-! ## Requests -/

/-- Characters permitted in an HTTP method token (Go `isTokenRune`). -/
def isTokenChar (c : Char) : Bool :=
  c.isAlpha ∨ c.isDigit ∨
    c = '!' ∨ c = '#' ∨ c = '$' ∨ c = '%' ∨ c = '&' ∨ c = '\'' ∨ c = '*' ∨
    c = '+' ∨ c = '-' ∨ c = '.' ∨ c = '^' ∨ c = '_' ∨ c = '`' ∨ c = '|' ∨ c = '~'

/-- Go `validMethod`. -/
def validMethod (m : String) : Bool :=
  m ≠ "" ∧ m.data.all isTokenChar

/-- An `*http.Request` as observable here: method, absolute URL (as the
string Go re-parses and stores), headers, optional body bytes. -/
structure HttpRequest where
  method : String
  url : String
  headers : List (String × String)
  body : Option String
deriving Repr, DecidableEq

/-- `Header.Add` (our keys are distinct and already canonical). -/
def headerAdd (hs : List (String × String)) (k v : String) : List (String × String) :=
  hs ++ [(k, v)]

/-- `Header.Set`: replace any existing value. -/
def headerSet (hs : List (String × String)) (k v : String) : List (String × String) :=
  hs.filter (fun p => p.1 ≠ k) ++ [(k, v)]

/-- `Header.Get`. -/
def headerGet (hs : List (String × String)) (k : String) : Option String :=
  (hs.find? (fun p => p.1 = k)).map (fun p => p.2)

/-- `NewRequest` of the full transport: resolve the relative URL against
the client's base (`c.baseURL.Parse(url)`), encode the optional body with
HTML-escaping disabled (`Encoder.Encode` appends a newline), build the
request (`http.NewRequest` checks the method and re-parses the URL
string), and add the two fixed headers.  The authentication header is not
set here. -/
def NewRequest (c : ClientStruct) (method url_ : String) (body : Option Json) : Except String HttpRequest :=
  match urlParse url_ with
  | .error e => .error e
  | .ok refURL =>
    let fullUrl := resolveReference c.baseURL refURL
    let buf : Option String := body.map (fun j => String.mk (encVal false j) ++ "\n")
    if ¬ validMethod method then .error "net/http: invalid method"
    else
      match urlParse (urlString fullUrl) with
      | .error e => .error e
      | .ok _ =>
        .ok { method := method, url := urlString fullUrl,
              headers := headerAdd (headerAdd [] "Content-Type" "application/json")
                "Accept-Encoding" "application/json",
              body := buf }

/-! ## Responses, error classification, `Do` -/

/-- An `*http.Response` as observable here.  `body` is the full byte
content of the response body; the reader object itself is always non-nil
for responses produced by `http.Client.Do` (net/http normalizes a nil
body from a transport to an empty reader), which is why `Do`'s
`resp.Body != nil` guard has no counterpart below.  A read error
mid-stream is not modelled (the body is already materialized). -/
structure HttpResponse where
  statusCode : Nat
  headers : List (String × String)
  body : String
deriving Repr, DecidableEq

/-- Modelled from the spec: the `ErrorResponse` struct is declared in a
file of this repository outside the provided sources; its construction
site `&ErrorResponse{Response: resp}` shows the embedded response, and
§3/§6 of the specification give the decoded envelope shape
`(status, message)` with empty fields when the body does not parse. -/
structure ErrorResponse where
  response : HttpResponse
  status : String
  message : String
deriving Repr, DecidableEq

/-- Best-effort extraction of a string field from a decoded JSON object,
as `json.Unmarshal` populates a string struct field: keys are matched
case-insensitively, later duplicates win, a non-string value assigns
nothing, `null` assigns nothing. -/
def getStringField (fields : JsonFields) (tag : String) (cur : String) : String :=
  match fields with
  | .nil => cur
  | .cons k v fs =>
    getStringField fs tag
      (if strLower k = tag then
        match v with
        | .str s => s
        | _ => cur
      else cur)

/-- The error envelope built by `checkForErrors`: the response is embedded,
then `json.Unmarshal` fills the status/message fields best-effort, its
error being discarded. -/
def errorEnvelope (resp : HttpResponse) : ErrorResponse :=
  match parseJson resp.body with
  | some (.obj fields) =>
    { response := resp, status := getStringField fields "status" "",
      message := getStringField fields "message" "" }
  | _ => { response := resp, status := "", message := "" }

/-- `checkForErrors`: nothing in the success band `[200, 400)`, otherwise
the best-effort envelope. -/
def checkForErrors (resp : HttpResponse) : Option ErrorResponse :=
  if 200 ≤ resp.statusCode ∧ resp.statusCode < 400 then none
  else some (errorEnvelope resp)

/-- The outcome of `Do`, with `α` the type of the caller's decode target. -/
inductive DoResult (α : Type) where
  | panicked
  | transportError
  | apiError (e : ErrorResponse)
  | decodeError
  | success (decoded : Option α)
deriving Repr

/-- The request as `Do` dispatches it: the `Authorization` header is set
from the client's token just before the transport call. -/
def dispatchedRequest (token : String) (req : HttpRequest) : HttpRequest :=
  { req with headers := headerSet req.headers "Authorization" ("Bearer " ++ token) }

/-- `Do`: dereference the request (a nil request panics on
`req.Header.Set`), set the bearer header, dispatch, classify the status,
and decode the body into the target when one was supplied.  `transport`
stands for `c.client.Do` (`none` = transport-level error); `target`
carries the `json.Unmarshal` into the caller's typed value (`none` =
caller passed nil). -/
def Do (token : String) (req : Option HttpRequest)
    (transport : HttpRequest → Option HttpResponse)
    (target : Option (String → Option α)) : DoResult α :=
  match req with
  | none => .panicked
  | some r =>
    match transport (dispatchedRequest token r) with
    | none => .transportError
    | some resp =>
      match checkForErrors resp with
      | some e => .apiError e
      | none =>
        match target with
        | none => .success none
        | some decode =>
          match decode resp.body with
          | none => .decodeError
          | some v => .success (some v)

/-! ## The ApiKey resource service (`utho/api_key.go`) -/

/-- `CreateApiKeyParams` (json tags `name`, `write`). -/
structure CreateApiKeyParams where
  name : String
  write : String
deriving Repr, DecidableEq

/-- Marshalling of `CreateApiKeyParams`, fields in declaration order. -/
def toJsonCreateApiKeyParams (p : CreateApiKeyParams) : Json :=
  .obj (.cons "name" (.str p.name) (.cons "write" (.str p.write) .nil))

/-- `CreateApiKeyResponse` (json tags `status`, `apikey`, `message`). -/
structure CreateApiKeyResponse where
  status : String
  apikey : String
  message : String
deriving Repr, DecidableEq

/-- Go zero value of `CreateApiKeyResponse`. -/
def zeroCreateApiKeyResponse : CreateApiKeyResponse :=
  { status := "", apikey := "", message := "" }

/-- `ApiKey` (json tags `id`, `name`, `write`, `created_at`). -/
structure ApiKey where
  id : String
  name : String
  write : String
  createdAt : String
deriving Repr, DecidableEq

/-- Go zero value of `ApiKey`. -/
def zeroApiKey : ApiKey :=
  { id := "", name := "", write := "", createdAt := "" }

/-- `ApiKeys` (json tags `status`, `message`, `api`). -/
structure ApiKeys where
  status : String
  message : String
  api : List ApiKey
deriving Repr, DecidableEq

/-- Go zero value of `ApiKeys` (a nil slice and an empty slice are not
distinguished by the model). -/
def zeroApiKeys : ApiKeys :=
  { status := "", message := "", api := [] }

/-- Modelled from the spec: `DeleteResponse` is declared in a file of this
repository outside the provided sources; its uses in `api_key.go` and the
test fixture `DeleteResponse{Status: ..., Message: ...}` show string
fields with json tags `status` and `message` (the generic success
envelope of §6). -/
structure DeleteResponse where
  status : String
  message : String
deriving Repr, DecidableEq

/-- Go zero value of `DeleteResponse`. -/
def zeroDeleteResponse : DeleteResponse :=
  { status := "", message := "" }

/-- Assign one decoded JSON value to a string struct field
(`json.Unmarshal` semantics): a string assigns, `null` is a no-op, any
other shape is an `UnmarshalTypeError`. -/
def setStrField (cur : String) : Json → Option String
  | .str s => some s
  | .null => some cur
  | _ => none

/-- Strict field walk for `CreateApiKeyResponse` (decode errors
propagate, unknown keys are ignored, keys match case-insensitively,
later duplicates win). -/
def applyCreateApiKeyFields (acc : CreateApiKeyResponse) : JsonFields → Option CreateApiKeyResponse
  | .nil => some acc
  | .cons k v fs =>
    let step :=
      if strLower k = "status" then (setStrField acc.status v).map (fun s => { acc with status := s })
      else if strLower k = "apikey" then (setStrField acc.apikey v).map (fun s => { acc with apikey := s })
      else if strLower k = "message" then (setStrField acc.message v).map (fun s => { acc with message := s })
      else some acc
    match step with
    | none => none
    | some acc2 => applyCreateApiKeyFields acc2 fs

/-- `json.Unmarshal` into `*CreateApiKeyResponse`: `null` is a no-op on
the zero value, an object is walked field by field, anything else is a
type error. -/
def fromJsonCreateApiKeyResponse : Json → Option CreateApiKeyResponse
  | .null => some zeroCreateApiKeyResponse
  | .obj fields => applyCreateApiKeyFields zeroCreateApiKeyResponse fields
  | _ => none

/-- Strict field walk for one `ApiKey`. -/
def applyApiKeyFields (acc : ApiKey) : JsonFields → Option ApiKey
  | .nil => some acc
  | .cons k v fs =>
    let step :=
      if strLower k = "id" then (setStrField acc.id v).map (fun s => { acc with id := s })
      else if strLower k = "name" then (setStrField acc.name v).map (fun s => { acc with name := s })
      else if strLower k = "write" then (setStrField acc.write v).map (fun s => { acc with write := s })
      else if strLower k = "created_at" then (setStrField acc.createdAt v).map (fun s => { acc with createdAt := s })
      else some acc
    match step with
    | none => none
    | some acc2 => applyApiKeyFields acc2 fs

/-- `json.Unmarshal` into one `ApiKey`. -/
def fromJsonApiKey : Json → Option ApiKey
  | .null => some zeroApiKey
  | .obj fields => applyApiKeyFields zeroApiKey fields
  | _ => none

/-- Decode a JSON array into `[]ApiKey`. -/
def fromJsonApiKeyList : JsonList → Option (List ApiKey)
  | .nil => some []
  | .cons x xs =>
    match fromJsonApiKey x with
    | none => none
    | some a =>
      match fromJsonApiKeyList xs with
      | none => none
      | some as_ => some (a :: as_)

/-- Assign one decoded JSON value to the `[]ApiKey` field. -/
def setApiField (cur : List ApiKey) : Json → Option (List ApiKey)
  | .arr xs => fromJsonApiKeyList xs
  | .null => some cur
  | _ => none

/-- Strict field walk for `ApiKeys`. -/
def applyApiKeysFields (acc : ApiKeys) : JsonFields → Option ApiKeys
  | .nil => some acc
  | .cons k v fs =>
    let step :=
      if strLower k = "status" then (setStrField acc.status v).map (fun s => { acc with status := s })
      else if strLower k = "message" then (setStrField acc.message v).map (fun s => { acc with message := s })
      else if strLower k = "api" then (setApiField acc.api v).map (fun l => { acc with api := l })
      else some acc
    match step with
    | none => none
    | some acc2 => applyApiKeysFields acc2 fs

/-- `json.Unmarshal` into `*ApiKeys`. -/
def fromJsonApiKeys : Json → Option ApiKeys
  | .null => some zeroApiKeys
  | .obj fields => applyApiKeysFields zeroApiKeys fields
  | _ => none

/-- Strict field walk for `DeleteResponse`. -/
def applyDeleteResponseFields (acc : DeleteResponse) : JsonFields → Option DeleteResponse
  | .nil => some acc
  | .cons k v fs =>
    let step :=
      if strLower k = "status" then (setStrField acc.status v).map (fun s => { acc with status := s })
      else if strLower k = "message" then (setStrField acc.message v).map (fun s => { acc with message := s })
      else some acc
    match step with
    | none => none
    | some acc2 => applyDeleteResponseFields acc2 fs

/-- `json.Unmarshal` into `*DeleteResponse`. -/
def fromJsonDeleteResponse : Json → Option DeleteResponse
  | .null => some zeroDeleteResponse
  | .obj fields => applyDeleteResponseFields zeroDeleteResponse fields
  | _ => none

/-- `json.Unmarshal` of body bytes into a typed target: parse, then
convert. -/
def decodeVia (fromJson : Json → Option α) (body : String) : Option α :=
  (parseJson body).bind fromJson

/-- A Go error value as the resource layer produces it: either the error
propagated from `Do`, or `errors.New(resp.Message)` built from the
API-level failure flag. -/
inductive GoError where
  | errorResponse (e : ErrorResponse)
  | transportError
  | decodeError
  | newError (msg : String)
deriving Repr

/-- Outcome of a resource-service call: Go's `(value, error)` pair plus
the unguarded nil-request panic. -/
inductive SvcOutcome (α : Type) where
  | panicked
  | failure (e : GoError)
  | success (v : α)
deriving Repr

deriving instance DecidableEq for GoError

deriving instance DecidableEq for SvcOutcome

deriving instance DecidableEq for DoResult

/-- `ApiKeyService.Create`: POST `api/generate` with the params as body;
the `NewRequest` error is discarded (`req, _ :=`); after `Do`, the
API-level status flag is re-checked and a non-success status becomes
`errors.New(apiKey.Message)`. -/
def ApiKeyService.Create (c : ClientStruct) (transport : HttpRequest → Option HttpResponse)
    (params : CreateApiKeyParams) : SvcOutcome CreateApiKeyResponse :=
  let reqUrl := "api/generate"
  let req := (NewRequest c "POST" reqUrl (some (toJsonCreateApiKeyParams params))).toOption
  match Do c.token req transport (some (decodeVia fromJsonCreateApiKeyResponse)) with
  | .panicked => .panicked
  | .transportError => .failure .transportError
  | .apiError e => .failure (.errorResponse e)
  | .decodeError => .failure .decodeError
  | .success v? =>
    let apiKey := v?.getD zeroCreateApiKeyResponse
    if apiKey.status ≠ "success" ∧ apiKey.status ≠ "" then .failure (.newError apiKey.message)
    else .success apiKey

/-- `ApiKeyService.List`: GET `api`; returns the decoded `API` slice. -/
def ApiKeyService.List (c : ClientStruct) (transport : HttpRequest → Option HttpResponse) :
    SvcOutcome (List ApiKey) :=
  let reqUrl := "api"
  let req := (NewRequest c "GET" reqUrl none).toOption
  match Do c.token req transport (some (decodeVia fromJsonApiKeys)) with
  | .panicked => .panicked
  | .transportError => .failure .transportError
  | .apiError e => .failure (.errorResponse e)
  | .decodeError => .failure .decodeError
  | .success v? =>
    let apikeys := v?.getD zeroApiKeys
    if apikeys.status ≠ "success" ∧ apikeys.status ≠ "" then .failure (.newError apikeys.message)
    else .success apikeys.api

/-- `ApiKeyService.Delete`: DELETE `api/<id>/delete`. -/
def ApiKeyService.Delete (c : ClientStruct) (transport : HttpRequest → Option HttpResponse)
    (apiKeyId : String) : SvcOutcome DeleteResponse :=
  let reqUrl := "api/" ++ apiKeyId ++ "/delete"
  let req := (NewRequest c "DELETE" reqUrl none).toOption
  match Do c.token req transport (some (decodeVia fromJsonDeleteResponse)) with
  | .panicked => .panicked
  | .transportError => .failure .transportError
  | .apiError e => .failure (.errorResponse e)
  | .decodeError => .failure .decodeError
  | .success v? =>
    let delResponse := v?.getD zeroDeleteResponse
    if delResponse.status ≠ "success" ∧ delResponse.status ≠ "" then .failure (.newError delResponse.message)
    else .success delResponse

/-! ## Auxiliary definitions for the verification -/

mutual

/-- Parser fuel sufficient for one encoded value (`parseVal` consumes one
unit per nesting step). -/
def jfuel : Json → Nat
  | .null => 1
  | .bool _ => 1
  | .num _ => 1
  | .str _ => 1
  | .arr xs => 1 + efuel xs
  | .obj fs => 1 + ofuel fs

/-- Parser fuel sufficient for an encoded element list. -/
def efuel : JsonList → Nat
  | .nil => 0
  | .cons x tl => 1 + jfuel x + efuel tl

/-- Parser fuel sufficient for an encoded field list. -/
def ofuel : JsonFields → Nat
  | .nil => 0
  | .cons _ v tl => 1 + jfuel v + ofuel tl

end

/-- The input that may legally follow an encoded JSON value: anything not
continuing a number literal. -/
def Boundary (cs : List Char) : Prop :=
  ∀ c, cs.head? = some c → c.isDigit = false

/-- The normalized default base URL, i.e. `toURLWithEndingSlash BaseUrl`. -/
def defaultBaseURL : GoURL :=
  { scheme := "https", opaquePart := "", host := "api.utho.com", path := "/v2/",
    rawQuery := "", fragment := "" }

/-- The client `NewClient token` builds before options are applied. -/
def defaultClient (token : String) : ClientStruct :=
  { httpClient := defaultHTTPClient, baseURL := defaultBaseURL, token := token }

/-! ## Lemmas: decimal digits -/

theorem digitChar_props {m : Nat} (h : m < 10) :
    (digitChar m).isDigit = true ∧ isWs (digitChar m) = false ∧
    digitChar m ≠ ']' ∧ digitChar m ≠ '}' ∧ digitChar m ≠ 'n' ∧ digitChar m ≠ 't' ∧
    digitChar m ≠ 'f' ∧ digitChar m ≠ '"' ∧ digitChar m ≠ '[' ∧ digitChar m ≠ '{' ∧
    digitChar m ≠ '-' ∧ (digitChar m).toNat = 48 + m := by
  interval_cases m <;> decide

theorem natDigitsGo_fuel {n : Nat} : ∀ {f g : Nat} (acc : List Char), n < f → n < g →
    natDigitsGo f n acc = natDigitsGo g n acc := by
  induction n using Nat.strong_induction_on with
  | _ n ih =>
    intro f g acc hf hg
    match f, g with
    | f' + 1, g' + 1 =>
      by_cases h10 : n < 10
      · simp [natDigitsGo, h10]
      · have hdiv : n / 10 < n := Nat.div_lt_self (by omega) (by omega)
        simp only [natDigitsGo, h10, if_false]
        exact ih (n / 10) hdiv _ (by omega) (by omega)

theorem natDigitsGo_append {n : Nat} : ∀ {f : Nat} (acc : List Char), n < f →
    natDigitsGo f n acc = natDigitsGo f n [] ++ acc := by
  induction n using Nat.strong_induction_on with
  | _ n ih =>
    intro f acc hf
    match f with
    | f' + 1 =>
      by_cases h10 : n < 10
      · simp [natDigitsGo, h10]
      · have hdiv : n / 10 < n := Nat.div_lt_self (by omega) (by omega)
        have hf' : n / 10 < f' := by omega
        simp only [natDigitsGo, h10, if_false]
        rw [ih (n / 10) hdiv _ hf', ih (n / 10) hdiv ([digitChar (n % 10)]) hf']
        simp

theorem natDigits_small {n : Nat} (h : n < 10) : natDigits n = [digitChar n] := by
  simp [natDigits, natDigitsGo, h]

theorem natDigits_step {n : Nat} (h : 10 ≤ n) :
    natDigits n = natDigits (n / 10) ++ [digitChar (n % 10)] := by
  have hdiv : n / 10 < n := Nat.div_lt_self (by omega) (by omega)
  show natDigitsGo (n + 1) n [] = _
  rw [show natDigitsGo (n + 1) n [] = natDigitsGo n (n / 10) [digitChar (n % 10)] by
    simp [natDigitsGo, show ¬ n < 10 by omega]]
  rw [natDigitsGo_fuel ([digitChar (n % 10)]) (by omega) (Nat.lt_succ_self _),
    natDigitsGo_append ([digitChar (n % 10)]) (Nat.lt_succ_self _)]
  rfl

theorem natDigits_head (n : Nat) : ∃ m t, natDigits n = digitChar m :: t ∧ m < 10 := by
  induction n using Nat.strong_induction_on with
  | _ n ih =>
    by_cases h10 : n < 10
    · exact ⟨n, [], by rw [natDigits_small h10], h10⟩
    · have hdiv : n / 10 < n := Nat.div_lt_self (by omega) (by omega)
      obtain ⟨m, t, heq, hm⟩ := ih (n / 10) hdiv
      exact ⟨m, t ++ [digitChar (n % 10)], by rw [natDigits_step (by omega), heq]; rfl, hm⟩

theorem natDigits_all_digits (n : Nat) : ∀ c ∈ natDigits n, c.isDigit = true := by
  induction n using Nat.strong_induction_on with
  | _ n ih =>
    by_cases h10 : n < 10
    · rw [natDigits_small h10]
      intro c hc
      simp at hc
      subst hc
      exact (digitChar_props h10).1
    · have hdiv : n / 10 < n := Nat.div_lt_self (by omega) (by omega)
      rw [natDigits_step (by omega)]
      intro c hc
      rcases List.mem_append.mp hc with h | h
      · exact ih (n / 10) hdiv c h
      · simp at h
        subst h
        exact (digitChar_props (Nat.mod_lt _ (by omega))).1

theorem digitsToNat_append (acc : Nat) (xs ys : List Char) :
    digitsToNat acc (xs ++ ys) = digitsToNat (digitsToNat acc xs) ys := by
  induction xs generalizing acc with
  | nil => rfl
  | cons c t ih =>
    show digitsToNat acc (c :: (t ++ ys)) = _
    rw [show digitsToNat acc (c :: (t ++ ys)) = digitsToNat (acc * 10 + (c.toNat - 48)) (t ++ ys) from rfl,
      ih, show digitsToNat acc (c :: t) = digitsToNat (acc * 10 + (c.toNat - 48)) t from rfl]

theorem digitsToNat_natDigits (n : Nat) : digitsToNat 0 (natDigits n) = n := by
  induction n using Nat.strong_induction_on with
  | _ n ih =>
    by_cases h10 : n < 10
    · rw [natDigits_small h10]
      show 0 * 10 + ((digitChar n).toNat - 48) = n
      rw [(digitChar_props h10).2.2.2.2.2.2.2.2.2.2.2]
      omega
    · have hdiv : n / 10 < n := Nat.div_lt_self (by omega) (by omega)
      rw [natDigits_step (by omega), digitsToNat_append, ih (n / 10) hdiv]
      show (n / 10) * 10 + ((digitChar (n % 10)).toNat - 48) = n
      rw [(digitChar_props (Nat.mod_lt _ (by omega))).2.2.2.2.2.2.2.2.2.2.2]
      omega

theorem natDigits_ne_nil (n : Nat) : natDigits n ≠ [] := by
  obtain ⟨m, t, heq, _⟩ := natDigits_head n
  simp [heq]

theorem spanDigits_append {ds rest : List Char} (hds : ∀ c ∈ ds, c.isDigit = true)
    (hrest : Boundary rest) : spanDigits (ds ++ rest) = (ds, rest) := by
  induction ds with
  | nil =>
    cases rest with
    | nil => rfl
    | cons c t => simp [spanDigits, hrest c rfl]
  | cons c t ih =>
    have hc := hds c (by simp)
    have ih2 := ih (fun x hx => hds x (by simp [hx]))
    simp [spanDigits, hc, ih2]


/-! ## Lemmas: string literals -/

theorem skipWs_cons {c : Char} {t : List Char} (h : isWs c = false) : skipWs (c :: t) = c :: t := by
  simp [skipWs, h]

theorem hexVal_hexDigit {m : Nat} (h : m < 16) : hexVal? (hexDigit m) = some m := by
  interval_cases m <;> decide

theorem psb_plain {c : Char} (h1 : c ≠ '"') (h2 : c ≠ '\\') (h3 : ¬ c.toNat < 0x20)
    (X : List Char) :
    parseStringBody (c :: X) = (parseStringBody X).map (fun p => (c :: p.1, p.2)) := by
  simp [parseStringBody, h1, h2, h3]

theorem psb_u {h1 h2 h3 h4 : Char} {a b c3 d : Nat}
    (e1 : hexVal? h1 = some a) (e2 : hexVal? h2 = some b)
    (e3 : hexVal? h3 = some c3) (e4 : hexVal? h4 = some d)
    (hrange : ¬ (0xD800 ≤ ((a * 16 + b) * 16 + c3) * 16 + d ∧
      ((a * 16 + b) * 16 + c3) * 16 + d < 0xE000)) (X : List Char) :
    parseStringBody ('\\' :: 'u' :: h1 :: h2 :: h3 :: h4 :: X)
      = (parseStringBody X).map (fun p =>
          (Char.ofNat (((a * 16 + b) * 16 + c3) * 16 + d) :: p.1, p.2)) := by
  simp [parseStringBody, e1, e2, e3, e4, hrange]

theorem parseStringBody_enc (esc : Bool) (cs rest : List Char) :
    parseStringBody (cs.flatMap (encChar esc) ++ '"' :: rest) = some (cs, rest) := by
  induction cs with
  | nil => rfl
  | cons c t ih =>
    rw [List.flatMap_cons, List.append_assoc]
    by_cases hq : c = '"'
    · subst hq
      rw [show encChar esc '"' = ['\\', '"'] from rfl]
      simp only [List.cons_append, List.nil_append]
      rw [show ∀ X, parseStringBody ('\\' :: '"' :: X)
        = (parseStringBody X).map (fun p => ('"' :: p.1, p.2)) from fun _ => rfl, ih]
      rfl
    · by_cases hb : c = '\\'
      · subst hb
        rw [show encChar esc '\\' = ['\\', '\\'] from rfl]
        simp only [List.cons_append, List.nil_append]
        rw [show ∀ X, parseStringBody ('\\' :: '\\' :: X)
          = (parseStringBody X).map (fun p => ('\\' :: p.1, p.2)) from fun _ => rfl, ih]
        rfl
      · by_cases hh : (esc : Prop) ∧ (c = '<' ∨ c = '>' ∨ c = '&')
        · obtain ⟨he, hc⟩ := hh
          rw [show encChar esc c = ['\\', 'u', '0', '0', hexDigit (c.toNat / 16),
              hexDigit (c.toNat % 16)] by
            simp [encChar, hq, hb, he, hc]]
          simp only [List.cons_append, List.nil_append]
          have hle : c.toNat < 0x80 := by
            rcases hc with hc | hc | hc <;> subst hc <;> decide
          have e0 : hexVal? '0' = some 0 := by decide
          rw [psb_u e0 e0
            (hexVal_hexDigit (by omega)) (hexVal_hexDigit (by omega)) (by omega)]
          rw [show ((0 * 16 + 0) * 16 + c.toNat / 16) * 16 + c.toNat % 16 = c.toNat by omega]
          rw [Char.ofNat_toNat, ih]
          rfl
        · by_cases hn : c = '\n'
          · subst hn
            rw [show encChar esc '\n' = ['\\', 'n'] by simp [encChar, hh]]
            simp only [List.cons_append, List.nil_append]
            rw [show ∀ X, parseStringBody ('\\' :: 'n' :: X)
              = (parseStringBody X).map (fun p => ('\n' :: p.1, p.2)) from fun _ => rfl, ih]
            rfl
          · by_cases hr : c = '\r'
            · subst hr
              rw [show encChar esc '\r' = ['\\', 'r'] by simp [encChar, hh]]
              simp only [List.cons_append, List.nil_append]
              rw [show ∀ X, parseStringBody ('\\' :: 'r' :: X)
                = (parseStringBody X).map (fun p => ('\r' :: p.1, p.2)) from fun _ => rfl, ih]
              rfl
            · by_cases ht : c = '\t'
              · subst ht
                rw [show encChar esc '\t' = ['\\', 't'] by simp [encChar, hh]]
                simp only [List.cons_append, List.nil_append]
                rw [show ∀ X, parseStringBody ('\\' :: 't' :: X)
                  = (parseStringBody X).map (fun p => ('\t' :: p.1, p.2)) from fun _ => rfl, ih]
                rfl
              · by_cases hctl : c.toNat < 0x20
                · rw [show encChar esc c = ['\\', 'u', '0', '0', hexDigit (c.toNat / 16),
                      hexDigit (c.toNat % 16)] by
                    simp [encChar, hq, hb, hh, hn, hr, ht, hctl]]
                  simp only [List.cons_append, List.nil_append]
                  have e0 : hexVal? '0' = some 0 := by decide
                  rw [psb_u e0 e0
                    (hexVal_hexDigit (by omega)) (hexVal_hexDigit (by omega)) (by omega)]
                  rw [show ((0 * 16 + 0) * 16 + c.toNat / 16) * 16 + c.toNat % 16 = c.toNat by
                    omega]
                  rw [Char.ofNat_toNat, ih]
                  rfl
                · by_cases h28 : c.toNat = 0x2028 ∨ c.toNat = 0x2029
                  · rw [show encChar esc c = ['\\', 'u', '2', '0', '2',
                        hexDigit (c.toNat % 16)] by
                      simp [encChar, hq, hb, hh, hn, hr, ht, hctl, h28]]
                    simp only [List.cons_append, List.nil_append]
                    have hd : hexVal? (hexDigit (c.toNat % 16)) = some (c.toNat % 16) :=
                      hexVal_hexDigit (by omega)
                    have e2a : hexVal? '2' = some 2 := by decide
                    have e0 : hexVal? '0' = some 0 := by decide
                    rw [psb_u e2a e0 e2a hd (by omega)]
                    rw [show ((2 * 16 + 0) * 16 + 2) * 16 + c.toNat % 16 = c.toNat by omega]
                    rw [Char.ofNat_toNat, ih]
                    rfl
                  · rw [show encChar esc c = [c] by
                      simp [encChar, hq, hb, hh, hn, hr, ht, hctl, h28]]
                    simp only [List.cons_append, List.nil_append]
                    rw [psb_plain hq hb hctl, ih]
                    rfl

/-! ## Lemmas: parser/encoder round trip -/

theorem boundary_of_head {c : Char} (h : c.isDigit = false) (X : List Char) :
    Boundary (c :: X) := by
  intro d hd
  simp at hd
  subst hd
  exact h

theorem boundary_nil : Boundary [] := by
  intro d hd
  simp at hd

theorem encVal_head (esc : Bool) (j : Json) :
    ∃ h t, encVal esc j = h :: t ∧ isWs h = false ∧ h ≠ ']' ∧ h ≠ '}' := by
  cases j with
  | null => exact ⟨'n', _, rfl, by decide, by decide, by decide⟩
  | bool b =>
    cases b with
    | false => exact ⟨'f', _, rfl, by decide, by decide, by decide⟩
    | true => exact ⟨'t', _, rfl, by decide, by decide, by decide⟩
  | num n =>
    by_cases hn : n < 0
    · exact ⟨'-', natDigits n.natAbs, by simp [encVal, encInt, hn], by decide, by decide, by decide⟩
    · obtain ⟨m, t, heq, hm⟩ := natDigits_head n.natAbs
      have hp := digitChar_props hm
      exact ⟨digitChar m, t, by simp [encVal, encInt, hn, heq], hp.2.1, hp.2.2.1, hp.2.2.2.1⟩
  | str s => exact ⟨'"', _, rfl, by decide, by decide, by decide⟩
  | arr xs => exact ⟨'[', _, rfl, by decide, by decide, by decide⟩
  | obj fs => exact ⟨'{', _, rfl, by decide, by decide, by decide⟩

theorem skipWs_encVal (esc : Bool) (j : Json) (X : List Char) :
    skipWs (encVal esc j ++ X) = encVal esc j ++ X := by
  obtain ⟨h, t, heq, hws, _, _⟩ := encVal_head esc j
  rw [heq]
  exact skipWs_cons hws

theorem parseVal_digitChar {m : Nat} (hm : m < 10) (f : Nat) (X : List Char) :
    parseVal (f + 1) (digitChar m :: X)
      = (match spanDigits (digitChar m :: X) with
         | (ds, r2) => some (.num (digitsToNat 0 ds : Int), r2)) := by
  interval_cases m <;> rfl

theorem parseVal_arr_of {f : Nat} {X : List Char} {ys : JsonList} {r : List Char}
    (hsk : skipWs X = X) (hhd : X.head? ≠ some ']')
    (h2 : parseElems f X = some (ys, r)) :
    parseVal (f + 1) ('[' :: X) = some (.arr ys, r) := by
  rw [show parseVal (f + 1) ('[' :: X)
    = (let r1 := skipWs X
       if r1.head? = some ']' then some (.arr .nil, r1.tail)
       else (parseElems f r1).map (fun p => (.arr p.1, p.2))) from rfl, hsk]
  show (if X.head? = some ']' then some (Json.arr JsonList.nil, X.tail)
    else (parseElems f X).map (fun p : JsonList × List Char => (Json.arr p.1, p.2))) = _
  rw [if_neg hhd, h2]
  rfl

theorem parseVal_obj_of {f : Nat} {X : List Char} {fs : JsonFields} {r : List Char}
    (hsk : skipWs X = X) (hhd : X.head? ≠ some '}')
    (h2 : parseFields f X = some (fs, r)) :
    parseVal (f + 1) ('{' :: X) = some (.obj fs, r) := by
  rw [show parseVal (f + 1) ('{' :: X)
    = (let r1 := skipWs X
       if r1.head? = some '}' then some (.obj .nil, r1.tail)
       else (parseFields f r1).map (fun p => (.obj p.1, p.2))) from rfl, hsk]
  show (if X.head? = some '}' then some (Json.obj JsonFields.nil, X.tail)
    else (parseFields f X).map (fun p : JsonFields × List Char => (Json.obj p.1, p.2))) = _
  rw [if_neg hhd, h2]
  rfl

theorem parseElems_last {f : Nat} {cs : List Char} {x : Json} {r2 : List Char}
    (h1 : parseVal f cs = some (x, ']' :: r2)) :
    parseElems (f + 1) cs = some (.cons x .nil, r2) := by
  rw [show parseElems (f + 1) cs
    = (match parseVal f cs with
       | none => none
       | some (j, r) =>
         match skipWs r with
         | ',' :: r2 => (parseElems f (skipWs r2)).map (fun p => (.cons j p.1, p.2))
         | ']' :: r2 => some (.cons j .nil, r2)
         | _ => none) from rfl, h1]
  rfl

theorem parseElems_more {f : Nat} {cs : List Char} {x : Json} {r2 : List Char}
    {ys : JsonList} {rest : List Char}
    (h1 : parseVal f cs = some (x, ',' :: r2))
    (h2 : parseElems f (skipWs r2) = some (ys, rest)) :
    parseElems (f + 1) cs = some (.cons x ys, rest) := by
  rw [show parseElems (f + 1) cs
    = (match parseVal f cs with
       | none => none
       | some (j, r) =>
         match skipWs r with
         | ',' :: r2 => (parseElems f (skipWs r2)).map (fun p => (.cons j p.1, p.2))
         | ']' :: r2 => some (.cons j .nil, r2)
         | _ => none) from rfl, h1]
  show (parseElems f (skipWs r2)).map (fun p => (JsonList.cons x p.1, p.2)) = _
  rw [h2]
  rfl

theorem parseFields_last {f : Nat} {X k r2 : List Char} {v : Json} {r4 : List Char}
    (h1 : parseStringBody X = some (k, ':' :: r2))
    (hsk : skipWs r2 = r2)
    (h2 : parseVal f r2 = some (v, '}' :: r4)) :
    parseFields (f + 1) ('"' :: X) = some (.cons (String.mk k) v .nil, r4) := by
  rw [show parseFields (f + 1) ('"' :: X)
    = (match parseStringBody X with
       | none => none
       | some (k, r1) =>
         match skipWs r1 with
         | ':' :: r2 =>
           match parseVal f (skipWs r2) with
           | none => none
           | some (v, r3) =>
             match skipWs r3 with
             | ',' :: r4 => (parseFields f (skipWs r4)).map (fun p => (.cons (String.mk k) v p.1, p.2))
             | '}' :: r4 => some (.cons (String.mk k) v .nil, r4)
             | _ => none
         | _ => none) from rfl, h1]
  show (match parseVal f (skipWs r2) with
    | none => none
    | some (v, r3) =>
      match skipWs r3 with
      | ',' :: r4 => (parseFields f (skipWs r4)).map
          (fun p : JsonFields × List Char => (JsonFields.cons (String.mk k) v p.1, p.2))
      | '}' :: r4 => some (JsonFields.cons (String.mk k) v JsonFields.nil, r4)
      | _ => (none : Option (JsonFields × List Char))) = _
  rw [hsk, h2]
  rfl

theorem parseFields_more {f : Nat} {X k r2 : List Char} {v : Json} {r4 : List Char}
    {fs : JsonFields} {rest : List Char}
    (h1 : parseStringBody X = some (k, ':' :: r2))
    (hsk : skipWs r2 = r2)
    (h2 : parseVal f r2 = some (v, ',' :: r4))
    (h3 : parseFields f (skipWs r4) = some (fs, rest)) :
    parseFields (f + 1) ('"' :: X) = some (.cons (String.mk k) v fs, rest) := by
  rw [show parseFields (f + 1) ('"' :: X)
    = (match parseStringBody X with
       | none => none
       | some (k, r1) =>
         match skipWs r1 with
         | ':' :: r2 =>
           match parseVal f (skipWs r2) with
           | none => none
           | some (v, r3) =>
             match skipWs r3 with
             | ',' :: r4 => (parseFields f (skipWs r4)).map (fun p => (.cons (String.mk k) v p.1, p.2))
             | '}' :: r4 => some (.cons (String.mk k) v .nil, r4)
             | _ => none
         | _ => none) from rfl, h1]
  show (match parseVal f (skipWs r2) with
    | none => none
    | some (v, r3) =>
      match skipWs r3 with
      | ',' :: r4 => (parseFields f (skipWs r4)).map
          (fun p : JsonFields × List Char => (JsonFields.cons (String.mk k) v p.1, p.2))
      | '}' :: r4 => some (JsonFields.cons (String.mk k) v JsonFields.nil, r4)
      | _ => (none : Option (JsonFields × List Char))) = _
  rw [hsk, h2]
  show (parseFields f (skipWs r4)).map (fun p => (JsonFields.cons (String.mk k) v p.1, p.2)) = _
  rw [h3]
  rfl

theorem jfuel_pos (j : Json) : 1 ≤ jfuel j := by
  cases j <;> simp [jfuel]

theorem efuel_cons_pos (x : Json) (tl : JsonList) : 1 ≤ efuel (.cons x tl) := by
  simp [efuel]
  omega

theorem ofuel_cons_pos (k : String) (v : Json) (tl : JsonFields) : 1 ≤ ofuel (.cons k v tl) := by
  simp [ofuel]
  omega

theorem parse_enc_aux (esc : Bool) : ∀ f : Nat,
    (∀ j rest, jfuel j ≤ f → Boundary rest →
      parseVal f (encVal esc j ++ rest) = some (j, rest))
    ∧ (∀ x tl rest, efuel (.cons x tl) ≤ f →
      parseElems f (encElems esc (.cons x tl) ++ ']' :: rest) = some (.cons x tl, rest))
    ∧ (∀ k v tl rest, ofuel (.cons k v tl) ≤ f →
      parseFields f (encFields esc (.cons k v tl) ++ '}' :: rest) = some (.cons k v tl, rest)) := by
  intro f
  induction f using Nat.strong_induction_on with
  | _ f ih =>
    refine ⟨?_, ?_, ?_⟩
    · intro j rest hf hb
      cases f with
      | zero => have := jfuel_pos j; omega
      | succ f =>
        cases j with
        | null => rfl
        | bool b => cases b <;> rfl
        | num n =>
          by_cases hn : n < 0
          · rw [show encVal esc (.num n) ++ rest = '-' :: (natDigits n.natAbs ++ rest) by
              simp [encVal, encInt, hn]]
            rw [show parseVal (f + 1) ('-' :: (natDigits n.natAbs ++ rest))
              = (match spanDigits (natDigits n.natAbs ++ rest) with
                 | ([], _) => none
                 | (ds, r2) => some (Json.num (-(digitsToNat 0 ds : Int)), r2)) from rfl]
            rw [spanDigits_append (natDigits_all_digits _) hb]
            obtain ⟨m, t, heq, hm⟩ := natDigits_head n.natAbs
            rw [heq]
            show some (Json.num (-(digitsToNat 0 (digitChar m :: t) : Int)), rest)
              = some (Json.num n, rest)
            rw [← heq, digitsToNat_natDigits]
            have hv : -((n.natAbs : Nat) : Int) = n := by omega
            rw [hv]
          · rw [show encVal esc (.num n) ++ rest = natDigits n.natAbs ++ rest by
              simp [encVal, encInt, hn]]
            obtain ⟨m, t, heq, hm⟩ := natDigits_head n.natAbs
            rw [heq, List.cons_append, parseVal_digitChar hm]
            rw [show digitChar m :: (t ++ rest) = natDigits n.natAbs ++ rest by rw [heq]; rfl]
            rw [spanDigits_append (natDigits_all_digits _) hb]
            show some (Json.num (digitsToNat 0 (natDigits n.natAbs) : Int), rest)
              = some (Json.num n, rest)
            rw [digitsToNat_natDigits]
            have hv : ((n.natAbs : Nat) : Int) = n := by omega
            rw [hv]
        | str s =>
          rw [show encVal esc (.str s) ++ rest
            = '"' :: (s.data.flatMap (encChar esc) ++ '"' :: rest) by simp [encVal, encString]]
          rw [show parseVal (f + 1) ('"' :: (s.data.flatMap (encChar esc) ++ '"' :: rest))
            = (parseStringBody (s.data.flatMap (encChar esc) ++ '"' :: rest)).map
                (fun p : List Char × List Char => (Json.str (String.mk p.1), p.2)) from rfl]
          rw [parseStringBody_enc]
          rfl
        | arr xs =>
          cases xs with
          | nil => rfl
          | cons x tl =>
            rw [show encVal esc (.arr (.cons x tl)) ++ rest
              = '[' :: (encElems esc (.cons x tl) ++ ']' :: rest) by simp [encVal]]
            obtain ⟨h, t, heq, hws, hnb, hnc⟩ := encVal_head esc x
            have hE : encElems esc (.cons x tl) ++ ']' :: rest
                = encVal esc x ++ (elemsSep tl ++ (encElems esc tl ++ ']' :: rest)) := by
              simp [encElems]
            have hsk : skipWs (encElems esc (.cons x tl) ++ ']' :: rest)
                = encElems esc (.cons x tl) ++ ']' :: rest := by
              rw [hE]
              exact skipWs_encVal esc x _
            have hhd : (encElems esc (.cons x tl) ++ ']' :: rest).head? ≠ some ']' := by
              rw [hE, heq]
              simp [hnb]
            have hfe : efuel (.cons x tl) ≤ f := by
              have hjf : jfuel (.arr (.cons x tl)) = 1 + efuel (.cons x tl) := rfl
              omega
            exact parseVal_arr_of hsk hhd ((ih f (by omega)).2.1 x tl rest hfe)
        | obj fs =>
          cases fs with
          | nil => rfl
          | cons k v tl =>
            rw [show encVal esc (.obj (.cons k v tl)) ++ rest
              = '{' :: (encFields esc (.cons k v tl) ++ '}' :: rest) by simp [encVal]]
            have hF : encFields esc (.cons k v tl) ++ '}' :: rest
                = '"' :: (k.data.flatMap (encChar esc)
                    ++ '"' :: (':' :: (encVal esc v
                      ++ (fieldsSep tl ++ (encFields esc tl ++ '}' :: rest))))) := by
              simp [encFields, encString]
            have hsk : skipWs (encFields esc (.cons k v tl) ++ '}' :: rest)
                = encFields esc (.cons k v tl) ++ '}' :: rest := by
              rw [hF]
              exact skipWs_cons (by decide)
            have hhd : (encFields esc (.cons k v tl) ++ '}' :: rest).head? ≠ some '}' := by
              rw [hF]
              simp
            have hfo : ofuel (.cons k v tl) ≤ f := by
              have hjf : jfuel (.obj (.cons k v tl)) = 1 + ofuel (.cons k v tl) := rfl
              omega
            exact parseVal_obj_of hsk hhd ((ih f (by omega)).2.2 k v tl rest hfo)
    · intro x tl rest hf
      cases f with
      | zero => have := efuel_cons_pos x tl; omega
      | succ f =>
        have hj : jfuel x ≤ f := by
          have : efuel (.cons x tl) = 1 + jfuel x + efuel tl := rfl
          omega
        have hRV := (ih f (by omega)).1
        cases tl with
        | nil =>
          have h1 : parseVal f (encVal esc x ++ ']' :: rest) = some (x, ']' :: rest) :=
            hRV x (']' :: rest) hj (boundary_of_head (by decide) _)
          rw [show encElems esc (.cons x .nil) ++ ']' :: rest = encVal esc x ++ ']' :: rest by
            simp [encElems, elemsSep]]
          exact parseElems_last h1
        | cons y tl2 =>
          have hfe2 : efuel (.cons y tl2) ≤ f := by
            have : efuel (.cons x (.cons y tl2))
                = 1 + jfuel x + efuel (.cons y tl2) := rfl
            omega
          have h1 : parseVal f (encVal esc x
              ++ ',' :: (encElems esc (.cons y tl2) ++ ']' :: rest))
              = some (x, ',' :: (encElems esc (.cons y tl2) ++ ']' :: rest)) :=
            hRV x _ hj (boundary_of_head (by decide) _)
          have hsk2 : skipWs (encElems esc (.cons y tl2) ++ ']' :: rest)
              = encElems esc (.cons y tl2) ++ ']' :: rest := by
            rw [show encElems esc (.cons y tl2) ++ ']' :: rest
              = encVal esc y ++ (elemsSep tl2 ++ (encElems esc tl2 ++ ']' :: rest)) by
                simp [encElems]]
            exact skipWs_encVal esc y _
          have h2 : parseElems f (skipWs (encElems esc (.cons y tl2) ++ ']' :: rest))
              = some (.cons y tl2, rest) := by
            rw [hsk2]
            exact (ih f (by omega)).2.1 y tl2 rest hfe2
          rw [show encElems esc (.cons x (.cons y tl2)) ++ ']' :: rest
            = encVal esc x ++ (',' :: (encElems esc (.cons y tl2) ++ ']' :: rest)) by
              simp [encElems, elemsSep]]
          exact parseElems_more h1 h2
    · intro k v tl rest hf
      cases f with
      | zero => have := ofuel_cons_pos k v tl; omega
      | succ f =>
        have hj : jfuel v ≤ f := by
          have : ofuel (.cons k v tl) = 1 + jfuel v + ofuel tl := rfl
          omega
        have hRV := (ih f (by omega)).1
        have hF : encFields esc (.cons k v tl) ++ '}' :: rest
            = '"' :: (k.data.flatMap (encChar esc)
                ++ '"' :: (':' :: (encVal esc v
                  ++ (fieldsSep tl ++ (encFields esc tl ++ '}' :: rest))))) := by
          simp [encFields, encString]
        rw [hF]
        have hpsb := parseStringBody_enc esc k.data
          (':' :: (encVal esc v ++ (fieldsSep tl ++ (encFields esc tl ++ '}' :: rest))))
        have hskv := skipWs_encVal esc v (fieldsSep tl ++ (encFields esc tl ++ '}' :: rest))
        cases tl with
        | nil =>
          have h2 : parseVal f (encVal esc v
              ++ (fieldsSep JsonFields.nil ++ (encFields esc JsonFields.nil ++ '}' :: rest)))
              = some (v, '}' :: rest) := by
            rw [show fieldsSep JsonFields.nil ++ (encFields esc JsonFields.nil ++ '}' :: rest)
              = '}' :: rest by simp [fieldsSep, encFields]]
            exact hRV v ('}' :: rest) hj (boundary_of_head (by decide) _)
          have h2' : parseVal f (encVal esc v
              ++ (fieldsSep JsonFields.nil ++ (encFields esc JsonFields.nil ++ '}' :: rest)))
              = some (v, '}' :: rest) := h2
          exact parseFields_last hpsb hskv h2
        | cons k2 v2 tl2 =>
          have hfo2 : ofuel (.cons k2 v2 tl2) ≤ f := by
            have : ofuel (.cons k v (.cons k2 v2 tl2))
                = 1 + jfuel v + ofuel (.cons k2 v2 tl2) := rfl
            omega
          have h2 : parseVal f (encVal esc v
              ++ (fieldsSep (JsonFields.cons k2 v2 tl2)
                ++ (encFields esc (JsonFields.cons k2 v2 tl2) ++ '}' :: rest)))
              = some (v, ',' :: (encFields esc (JsonFields.cons k2 v2 tl2) ++ '}' :: rest)) := by
            rw [show fieldsSep (JsonFields.cons k2 v2 tl2)
                ++ (encFields esc (JsonFields.cons k2 v2 tl2) ++ '}' :: rest)
              = ',' :: (encFields esc (JsonFields.cons k2 v2 tl2) ++ '}' :: rest) by
                simp [fieldsSep]]
            exact hRV v _ hj (boundary_of_head (by decide) _)
          have h3 : parseFields f
              (skipWs (encFields esc (JsonFields.cons k2 v2 tl2) ++ '}' :: rest))
              = some (.cons k2 v2 tl2, rest) := by
            rw [show encFields esc (JsonFields.cons k2 v2 tl2) ++ '}' :: rest
              = '"' :: (k2.data.flatMap (encChar esc)
                  ++ '"' :: (':' :: (encVal esc v2
                    ++ (fieldsSep tl2 ++ (encFields esc tl2 ++ '}' :: rest))))) by
                simp [encFields, encString]]
            rw [skipWs_cons (by decide)]
            rw [show ('"' : Char) :: (k2.data.flatMap (encChar esc)
                  ++ '"' :: (':' :: (encVal esc v2
                    ++ (fieldsSep tl2 ++ (encFields esc tl2 ++ '}' :: rest)))))
              = encFields esc (JsonFields.cons k2 v2 tl2) ++ '}' :: rest by
                simp [encFields, encString]]
            exact (ih f (by omega)).2.2 k2 v2 tl2 rest hfo2
          exact parseFields_more hpsb hskv h2 h3

theorem encVal_len_pos (esc : Bool) (j : Json) : 1 ≤ (encVal esc j).length := by
  obtain ⟨h, t, heq, _, _, _⟩ := encVal_head esc j
  simp [heq]

mutual

theorem jfuel_le (esc : Bool) : (j : Json) → jfuel j ≤ (encVal esc j).length
  | .null => by simp [jfuel, encVal]
  | .bool b => by cases b <;> simp [jfuel, encVal]
  | .num n => by
    have h1 : 1 ≤ (natDigits n.natAbs).length :=
      List.length_pos.mpr (natDigits_ne_nil n.natAbs)
    by_cases hn : n < 0 <;> simp [jfuel, encVal, encInt, hn] <;> omega
  | .str s => by simp [jfuel, encVal, encString]
  | .arr .nil => by simp [jfuel, efuel, encVal, encElems]
  | .arr (.cons x tl) => by
    have h := efuel_le esc x tl
    have hjf : jfuel (.arr (.cons x tl)) = 1 + efuel (.cons x tl) := rfl
    simp [encVal] at h ⊢
    omega
  | .obj .nil => by simp [jfuel, ofuel, encVal, encFields]
  | .obj (.cons k v tl) => by
    have h := ofuel_le esc k v tl
    have hjf : jfuel (.obj (.cons k v tl)) = 1 + ofuel (.cons k v tl) := rfl
    simp [encVal] at h ⊢
    omega
termination_by j => sizeOf j

theorem efuel_le (esc : Bool) : (x : Json) → (tl : JsonList) →
    efuel (.cons x tl) ≤ (encElems esc (.cons x tl)).length + 1
  | x, .nil => by
    have h := jfuel_le esc x
    have he : efuel (.cons x .nil) = 1 + jfuel x + 0 := rfl
    simp [encElems, elemsSep]
    omega
  | x, .cons y tl2 => by
    have h1 := jfuel_le esc x
    have h2 := efuel_le esc y tl2
    have he : efuel (.cons x (.cons y tl2)) = 1 + jfuel x + efuel (.cons y tl2) := rfl
    simp [encElems, elemsSep] at h2 ⊢
    omega
termination_by x tl => sizeOf x + sizeOf tl

theorem ofuel_le (esc : Bool) : (k : String) → (v : Json) → (tl : JsonFields) →
    ofuel (.cons k v tl) ≤ (encFields esc (.cons k v tl)).length + 1
  | k, v, .nil => by
    have h := jfuel_le esc v
    have ho : ofuel (.cons k v .nil) = 1 + jfuel v + 0 := rfl
    simp [encFields, fieldsSep, encString]
    omega
  | k, v, .cons k2 v2 tl2 => by
    have h1 := jfuel_le esc v
    have h2 := ofuel_le esc k2 v2 tl2
    have ho : ofuel (.cons k v (.cons k2 v2 tl2)) = 1 + jfuel v + ofuel (.cons k2 v2 tl2) := rfl
    simp [encFields, fieldsSep, encString] at h2 ⊢
    omega
termination_by _ v tl => sizeOf v + sizeOf tl

end

theorem parseJsonChars_encVal (esc : Bool) (j : Json) :
    parseJsonChars (encVal esc j ++ ['\n']) = some j := by
  unfold parseJsonChars
  rw [show skipWs (encVal esc j ++ ['\n']) = encVal esc j ++ ['\n'] from skipWs_encVal esc j _]
  have hfl : jfuel j ≤ (encVal esc j ++ ['\n']).length + 1 := by
    have := jfuel_le esc j
    simp
    omega
  rw [(parse_enc_aux esc ((encVal esc j ++ ['\n']).length + 1)).1 j ['\n'] hfl
    (boundary_of_head (by decide) _)]
  rfl

theorem parseJson_encVal (esc : Bool) (j : Json) :
    parseJson (String.mk (encVal esc j) ++ "\n") = some j := by
  show parseJsonChars (String.mk (encVal esc j) ++ "\n").data = some j
  rw [show (String.mk (encVal esc j) ++ "\n").data = encVal esc j ++ ['\n'] from rfl]
  exact parseJsonChars_encVal esc j

/-! ## Lemmas: transport and services -/

theorem NewClient_empty (options : List (ClientStruct → Except String ClientStruct)) :
    NewClient "" options = .error "you must provide an API token" := by
  simp [NewClient]

theorem NewClient_ok {t : String} (h : t ≠ "") : NewClient t [] = .ok (defaultClient t) := by
  rw [show NewClient t []
    = (if t = "" then .error "you must provide an API token"
       else match toURLWithEndingSlash BaseUrl with
        | .error e => .error e
        | .ok defaultBaseURL =>
          applyOptions
            { httpClient := defaultHTTPClient, baseURL := defaultBaseURL, token := t } []
      ) from rfl, if_neg h]
  rfl

theorem NewRequest_ok_of {c : ClientStruct} {method url_ : String} {body : Option Json}
    {refURL u2 : GoURL}
    (h1 : urlParse url_ = .ok refURL)
    (h2 : validMethod method = true)
    (h3 : urlParse (urlString (resolveReference c.baseURL refURL)) = .ok u2) :
    NewRequest c method url_ body
      = .ok { method := method, url := urlString (resolveReference c.baseURL refURL),
              headers := [("Content-Type", "application/json"),
                ("Accept-Encoding", "application/json")],
              body := body.map (fun j => String.mk (encVal false j) ++ "\n") } := by
  simp [NewRequest, h1, h2, h3, headerAdd]

set_option maxHeartbeats 1600000 in
theorem NewRequest_apiGenerate (t : String) (b : Option Json) :
    NewRequest (defaultClient t) "POST" "api/generate" b
      = .ok { method := "POST", url := "https://api.utho.com/v2/api/generate",
              headers := [("Content-Type", "application/json"),
                ("Accept-Encoding", "application/json")],
              body := b.map (fun j => String.mk (encVal false j) ++ "\n") } := by
  have h1 : urlParse "api/generate"
      = .ok { scheme := "", opaquePart := "", host := "", path := "api/generate",
              rawQuery := "", fragment := "" } := by decide
  have h3 : urlParse (urlString (resolveReference defaultBaseURL
        { scheme := "", opaquePart := "", host := "", path := "api/generate",
          rawQuery := "", fragment := "" }))
      = .ok { scheme := "https", opaquePart := "", host := "api.utho.com",
              path := "/v2/api/generate", rawQuery := "", fragment := "" } := by decide
  have h4 : urlString (resolveReference defaultBaseURL
        { scheme := "", opaquePart := "", host := "", path := "api/generate",
          rawQuery := "", fragment := "" }) = "https://api.utho.com/v2/api/generate" := by decide
  have hb : (defaultClient t).baseURL = defaultBaseURL := rfl
  have h2 : validMethod "POST" = true := by decide
  rw [NewRequest_ok_of h1 h2 h3, hb, h4]

set_option maxHeartbeats 1600000 in
theorem NewRequest_api (t : String) :
    NewRequest (defaultClient t) "GET" "api" none
      = .ok { method := "GET", url := "https://api.utho.com/v2/api",
              headers := [("Content-Type", "application/json"),
                ("Accept-Encoding", "application/json")],
              body := none } := by
  have h1 : urlParse "api"
      = .ok { scheme := "", opaquePart := "", host := "", path := "api",
              rawQuery := "", fragment := "" } := by decide
  have h3 : urlParse (urlString (resolveReference defaultBaseURL
        { scheme := "", opaquePart := "", host := "", path := "api",
          rawQuery := "", fragment := "" }))
      = .ok { scheme := "https", opaquePart := "", host := "api.utho.com",
              path := "/v2/api", rawQuery := "", fragment := "" } := by decide
  have h4 : urlString (resolveReference defaultBaseURL
        { scheme := "", opaquePart := "", host := "", path := "api",
          rawQuery := "", fragment := "" }) = "https://api.utho.com/v2/api" := by decide
  have hb : (defaultClient t).baseURL = defaultBaseURL := rfl
  have h2 : validMethod "GET" = true := by decide
  rw [NewRequest_ok_of h1 h2 h3, hb, h4]
  rfl

theorem errorEnvelope_response (resp : HttpResponse) : (errorEnvelope resp).response = resp := by
  unfold errorEnvelope
  cases hp : parseJson resp.body with
  | none => rfl
  | some j => cases j <;> rfl

theorem checkForErrors_out {resp : HttpResponse}
    (h : resp.statusCode < 200 ∨ 400 ≤ resp.statusCode) :
    checkForErrors resp = some (errorEnvelope resp) := by
  unfold checkForErrors
  rw [if_neg (by omega)]

theorem checkForErrors_in {resp : HttpResponse}
    (h : 200 ≤ resp.statusCode ∧ resp.statusCode < 400) :
    checkForErrors resp = none := by
  unfold checkForErrors
  rw [if_pos h]

theorem Do_apiError {α : Type} (token : String) (req : HttpRequest) (resp : HttpResponse)
    (target : Option (String → Option α))
    (h : resp.statusCode < 200 ∨ 400 ≤ resp.statusCode) :
    Do token (some req) (fun _ => some resp) target = .apiError (errorEnvelope resp) := by
  simp [Do, checkForErrors_out h]

theorem Do_success {α : Type} (token : String) (req : HttpRequest) (resp : HttpResponse)
    (decode : String → Option α) {v : α}
    (hband : 200 ≤ resp.statusCode ∧ resp.statusCode < 400)
    (hdec : decode resp.body = some v) :
    Do token (some req) (fun _ => some resp) (some decode) = .success (some v) := by
  simp [Do, checkForErrors_in hband, hdec]

theorem Do_decodeError {α : Type} (token : String) (req : HttpRequest) (resp : HttpResponse)
    (decode : String → Option α)
    (hband : 200 ≤ resp.statusCode ∧ resp.statusCode < 400)
    (hdec : decode resp.body = none) :
    Do token (some req) (fun _ => some resp) (some decode) = .decodeError := by
  simp [Do, checkForErrors_in hband, hdec]

theorem Do_noTarget {α : Type} (token : String) (req : HttpRequest) (resp : HttpResponse)
    (hband : 200 ≤ resp.statusCode ∧ resp.statusCode < 400) :
    Do (α := α) token (some req) (fun _ => some resp) none = .success none := by
  simp [Do, checkForErrors_in hband]

theorem Create_flow (t : String) (resp : HttpResponse) (params : CreateApiKeyParams)
    {r : CreateApiKeyResponse}
    (hband : 200 ≤ resp.statusCode ∧ resp.statusCode < 400)
    (hdec : decodeVia fromJsonCreateApiKeyResponse resp.body = some r) :
    ApiKeyService.Create (defaultClient t) (fun _ => some resp) params
      = (if r.status ≠ "success" ∧ r.status ≠ "" then .failure (.newError r.message)
         else .success r) := by
  have hreq := NewRequest_apiGenerate t (some (toJsonCreateApiKeyParams params))
  simp only [ApiKeyService.Create, hreq, Except.toOption]
  rw [Do_success _ _ _ _ hband hdec]
  rfl

theorem List_flow (t : String) (resp : HttpResponse) {r : ApiKeys}
    (hband : 200 ≤ resp.statusCode ∧ resp.statusCode < 400)
    (hdec : decodeVia fromJsonApiKeys resp.body = some r) :
    ApiKeyService.List (defaultClient t) (fun _ => some resp)
      = (if r.status ≠ "success" ∧ r.status ≠ "" then .failure (.newError r.message)
         else .success r.api) := by
  have hreq := NewRequest_api t
  simp only [ApiKeyService.List, hreq, Except.toOption]
  rw [Do_success _ _ _ _ hband hdec]
  rfl

theorem Delete_flow (t : String) (resp : HttpResponse) (apiKeyId : String) {req : HttpRequest}
    {r : DeleteResponse}
    (hreq : NewRequest (defaultClient t) "DELETE" ("api/" ++ apiKeyId ++ "/delete") none = .ok req)
    (hband : 200 ≤ resp.statusCode ∧ resp.statusCode < 400)
    (hdec : decodeVia fromJsonDeleteResponse resp.body = some r) :
    ApiKeyService.Delete (defaultClient t) (fun _ => some resp) apiKeyId
      = (if r.status ≠ "success" ∧ r.status ≠ "" then .failure (.newError r.message)
         else .success r) := by
  simp only [ApiKeyService.Delete, hreq, Except.toOption]
  rw [Do_success _ _ _ _ hband hdec]
  rfl

theorem NewRequest_ok_elim {c : ClientStruct} {method u : String} {b : Option Json}
    {req : HttpRequest} (h : NewRequest c method u b = .ok req) :
    ∃ refURL, urlParse u = .ok refURL
      ∧ req = { method := method, url := urlString (resolveReference c.baseURL refURL),
                headers := [("Content-Type", "application/json"),
                  ("Accept-Encoding", "application/json")],
                body := b.map (fun j => String.mk (encVal false j) ++ "\n") } := by
  unfold NewRequest at h
  rcases hp : urlParse u with e | refU <;> rw [hp] at h
  · simp at h
  · refine ⟨refU, rfl, ?_⟩
    simp only [] at h
    split at h
    · simp at h
    · rcases hq : urlParse (urlString (resolveReference c.baseURL refU)) with e2 | u2 <;>
        rw [hq] at h
      · simp at h
      · simp only [headerAdd, List.nil_append, Except.ok.injEq] at h
        exact h.symm

/-! ## The claims -/

/-- C1: for every HTTP response whose status code lies outside the band
[200, 400), `Do` returns a non-nil error value that carries the response's
status code (the envelope embeds the response) regardless of the body's
content — the body is universally quantified, covering empty and non-JSON
bodies — and the result is the `apiError` outcome, never one that decodes
the body into the caller-supplied success target. -/
theorem claim_C1 {α : Type} (resp : HttpResponse)
    (h : resp.statusCode < 200 ∨ 400 ≤ resp.statusCode)
    (token : String) (req : HttpRequest) (decode : String → Option α) :
    ∃ e : ErrorResponse,
      checkForErrors resp = some e
      ∧ e.response.statusCode = resp.statusCode
      ∧ Do token (some req) (fun _ => some resp) (some decode) = .apiError e :=
  ⟨errorEnvelope resp, checkForErrors_out h, by rw [errorEnvelope_response],
    Do_apiError token req resp _ h⟩

/-- Witness for C1 at a concrete 404 response with a non-JSON body. -/
theorem claim_C1_witness :
    ∃ e : ErrorResponse,
      checkForErrors { statusCode := 404, headers := [], body := "not json" } = some e
      ∧ e.response.statusCode
          = ({ statusCode := 404, headers := [], body := "not json" } : HttpResponse).statusCode
      ∧ Do "tok" (some { method := "GET", url := "u", headers := [], body := none })
          (fun _ => some { statusCode := 404, headers := [], body := "not json" })
          (some (decodeVia fromJsonCreateApiKeyResponse)) = .apiError e :=
  claim_C1 { statusCode := 404, headers := [], body := "not json" } (by decide) "tok"
    { method := "GET", url := "u", headers := [], body := none }
    (decodeVia fromJsonCreateApiKeyResponse)

/-- C4: `NewClient` with an empty token returns a nil client and an error
for every option list, and with a non-empty token and no options it
returns the fully-built default client and no error. -/
theorem claim_C4 :
    (∀ options, NewClient "" options = .error "you must provide an API token")
    ∧ (∀ t : String, t ≠ "" → NewClient t [] = .ok (defaultClient t)) :=
  ⟨NewClient_empty, fun _ h => NewClient_ok h⟩

/-- Witness for C4 with the token `tok`. -/
theorem claim_C4_witness :
    NewClient "" [] = .error "you must provide an API token"
    ∧ NewClient "tok" [] = .ok (defaultClient "tok") :=
  ⟨claim_C4.1 [], claim_C4.2 "tok" (by decide)⟩

/-- C9: the default HTTP transport of the full client
(`src/unnamed/part_001`, the variant the specification describes) has a
bounded timeout of 300 seconds, a multi-minute (five-minute) ceiling. -/
theorem claim_C9 :
    defaultHTTPClient.timeoutSeconds = 300
    ∧ defaultHTTPClient.timeoutSeconds = 5 * 60
    ∧ 2 * 60 ≤ defaultHTTPClient.timeoutSeconds := by
  refine ⟨rfl, rfl, by decide⟩

/-- C10: the ApiKey operations discard the `NewRequest` error (`req, _ :=`);
for the apiKeyId `%zz` (an invalid percent escape) request construction
fails, `Delete` passes the nil request to `Do`, and `Do`'s unguarded
`req.Header.Set` dereference panics — the construction error is never
returned to the caller. -/
theorem claim_C10 :
    (∃ e, NewRequest (defaultClient "tok") "DELETE" ("api/" ++ "%zz" ++ "/delete") none
      = .error e)
    ∧ ApiKeyService.Delete (defaultClient "tok")
        (fun _ => some { statusCode := 200, headers := [], body := "x" }) "%zz"
      = .panicked :=
  ⟨⟨"invalid URL escape", by decide⟩, by decide⟩

/-- C2: for every success-band response whose decoded body carries
`status = "failed"` and `message = X`, each ApiKey operation (Create,
List, Delete) returns the error `errors.New(X)` and no success value
(the outcome constructor `failure` carries no result). -/
theorem claim_C2 (t X : String) (resp : HttpResponse)
    (hband : 200 ≤ resp.statusCode ∧ resp.statusCode < 400) :
    (∀ (params : CreateApiKeyParams) (r : CreateApiKeyResponse),
      decodeVia fromJsonCreateApiKeyResponse resp.body = some r →
      r.status = "failed" → r.message = X →
      ApiKeyService.Create (defaultClient t) (fun _ => some resp) params
        = .failure (.newError X))
    ∧ (∀ r : ApiKeys,
      decodeVia fromJsonApiKeys resp.body = some r →
      r.status = "failed" → r.message = X →
      ApiKeyService.List (defaultClient t) (fun _ => some resp)
        = .failure (.newError X))
    ∧ (∀ (apiKeyId : String) (req : HttpRequest) (r : DeleteResponse),
      NewRequest (defaultClient t) "DELETE" ("api/" ++ apiKeyId ++ "/delete") none = .ok req →
      decodeVia fromJsonDeleteResponse resp.body = some r →
      r.status = "failed" → r.message = X →
      ApiKeyService.Delete (defaultClient t) (fun _ => some resp) apiKeyId
        = .failure (.newError X)) := by
  refine ⟨?_, ?_, ?_⟩
  · intro params r hdec hst hmsg
    rw [Create_flow t resp params hband hdec, if_pos (by rw [hst]; exact ⟨by decide, by decide⟩),
      hmsg]
  · intro r hdec hst hmsg
    rw [List_flow t resp hband hdec, if_pos (by rw [hst]; exact ⟨by decide, by decide⟩), hmsg]
  · intro apiKeyId req r hreq hdec hst hmsg
    rw [Delete_flow t resp apiKeyId hreq hband hdec,
      if_pos (by rw [hst]; exact ⟨by decide, by decide⟩), hmsg]

/-- Witness for C2 at a concrete 200 response with body
`{"status":"failed","message":"X"}`. -/
theorem claim_C2_witness :
    ApiKeyService.Create (defaultClient "tok")
      (fun _ => some { statusCode := 200, headers := [],
                       body := "\x7b\"status\":\"failed\",\"message\":\"X\"\x7d" }) ⟨"k", "1"⟩
      = .failure (.newError "X")
    ∧ ApiKeyService.List (defaultClient "tok")
      (fun _ => some { statusCode := 200, headers := [],
                       body := "\x7b\"status\":\"failed\",\"message\":\"X\"\x7d" })
      = .failure (.newError "X")
    ∧ ApiKeyService.Delete (defaultClient "tok")
      (fun _ => some { statusCode := 200, headers := [],
                       body := "\x7b\"status\":\"failed\",\"message\":\"X\"\x7d" }) "176300"
      = .failure (.newError "X") :=
  ⟨(claim_C2 "tok" "X" _ (by decide)).1 ⟨"k", "1"⟩ ⟨"failed", "", "X"⟩ (by decide) rfl rfl,
   (claim_C2 "tok" "X" _ (by decide)).2.1 ⟨"failed", "X", []⟩ (by decide) rfl rfl,
   (claim_C2 "tok" "X" _ (by decide)).2.2 "176300"
     { method := "DELETE", url := "https://api.utho.com/v2/api/176300/delete",
       headers := [("Content-Type", "application/json"),
         ("Accept-Encoding", "application/json")], body := none }
     ⟨"failed", "X"⟩ (by decide) (by decide) rfl rfl⟩

/-- C3: a structurally successful response whose decoded body has an
absent (hence empty) `status` field is treated as a success by each
ApiKey operation: the decoded result is returned with no error; only an
explicit non-"success" status is surfaced as an error. -/
theorem claim_C3 (t : String) (resp : HttpResponse)
    (hband : 200 ≤ resp.statusCode ∧ resp.statusCode < 400) :
    (∀ (params : CreateApiKeyParams) (r : CreateApiKeyResponse),
      decodeVia fromJsonCreateApiKeyResponse resp.body = some r →
      r.status = "" →
      ApiKeyService.Create (defaultClient t) (fun _ => some resp) params = .success r)
    ∧ (∀ r : ApiKeys,
      decodeVia fromJsonApiKeys resp.body = some r →
      r.status = "" →
      ApiKeyService.List (defaultClient t) (fun _ => some resp) = .success r.api)
    ∧ (∀ (apiKeyId : String) (req : HttpRequest) (r : DeleteResponse),
      NewRequest (defaultClient t) "DELETE" ("api/" ++ apiKeyId ++ "/delete") none = .ok req →
      decodeVia fromJsonDeleteResponse resp.body = some r →
      r.status = "" →
      ApiKeyService.Delete (defaultClient t) (fun _ => some resp) apiKeyId = .success r) := by
  refine ⟨?_, ?_, ?_⟩
  · intro params r hdec hst
    rw [Create_flow t resp params hband hdec, if_neg (by rw [hst]; simp)]
  · intro r hdec hst
    rw [List_flow t resp hband hdec, if_neg (by rw [hst]; simp)]
  · intro apiKeyId req r hreq hdec hst
    rw [Delete_flow t resp apiKeyId hreq hband hdec, if_neg (by rw [hst]; simp)]

/-- Witness for C3 at a concrete 200 response with body
`{"message":"ok"}` (no status field). -/
theorem claim_C3_witness :
    ApiKeyService.Create (defaultClient "tok")
      (fun _ => some { statusCode := 200, headers := [],
                       body := "\x7b\"message\":\"ok\"\x7d" }) ⟨"k", "1"⟩
      = .success ⟨"", "", "ok"⟩
    ∧ ApiKeyService.List (defaultClient "tok")
      (fun _ => some { statusCode := 200, headers := [],
                       body := "\x7b\"message\":\"ok\"\x7d" })
      = .success []
    ∧ ApiKeyService.Delete (defaultClient "tok")
      (fun _ => some { statusCode := 200, headers := [],
                       body := "\x7b\"message\":\"ok\"\x7d" }) "176300"
      = .success ⟨"", "ok"⟩ :=
  ⟨(claim_C3 "tok" _ (by decide)).1 ⟨"k", "1"⟩ ⟨"", "", "ok"⟩ (by decide) rfl,
   (claim_C3 "tok" _ (by decide)).2.1 ⟨"", "ok", []⟩ (by decide) rfl,
   (claim_C3 "tok" _ (by decide)).2.2 "176300"
     { method := "DELETE", url := "https://api.utho.com/v2/api/176300/delete",
       headers := [("Content-Type", "application/json"),
         ("Accept-Encoding", "application/json")], body := none }
     ⟨"", "ok"⟩ (by decide) (by decide) rfl⟩

/-- C5: every request built by `NewRequest` carries
`Content-Type: application/json` and `Accept-Encoding: application/json`
and no `Authorization` header; `Do` sets
`Authorization: Bearer <token>` just before dispatch (the transport is
only ever consulted at `dispatchedRequest token req`, on which the bearer
header is present). -/
theorem claim_C5 {α : Type} {c : ClientStruct} {method u : String} {b : Option Json}
    {req : HttpRequest} (h : NewRequest c method u b = .ok req) (token : String) :
    headerGet req.headers "Content-Type" = some "application/json"
    ∧ headerGet req.headers "Accept-Encoding" = some "application/json"
    ∧ headerGet req.headers "Authorization" = none
    ∧ headerGet (dispatchedRequest token req).headers "Authorization"
        = some ("Bearer " ++ token)
    ∧ ∀ (t1 t2 : HttpRequest → Option HttpResponse) (target : Option (String → Option α)),
        t1 (dispatchedRequest token req) = t2 (dispatchedRequest token req) →
        Do token (some req) t1 target = Do token (some req) t2 target := by
  obtain ⟨refURL, h1, h2⟩ := NewRequest_ok_elim h
  subst h2
  refine ⟨rfl, rfl, rfl, rfl, ?_⟩
  intro t1 t2 target hEq
  simp only [Do, hEq]

set_option maxHeartbeats 1600000 in
/-- Witness for C5 at the concrete request built for `GET api`. -/
theorem claim_C5_witness :
    headerGet [("Content-Type", "application/json"), ("Accept-Encoding", "application/json")]
        "Content-Type" = some "application/json"
    ∧ headerGet [("Content-Type", "application/json"), ("Accept-Encoding", "application/json")]
        "Accept-Encoding" = some "application/json"
    ∧ headerGet [("Content-Type", "application/json"), ("Accept-Encoding", "application/json")]
        "Authorization" = none
    ∧ headerGet (dispatchedRequest "tok"
        { method := "GET", url := "https://api.utho.com/v2/api",
          headers := [("Content-Type", "application/json"),
            ("Accept-Encoding", "application/json")], body := none }).headers
        "Authorization" = some ("Bearer " ++ "tok") := by
  have H := @claim_C5 Unit (defaultClient "tok") "GET" "api" none
    { method := "GET", url := "https://api.utho.com/v2/api",
      headers := [("Content-Type", "application/json"),
        ("Accept-Encoding", "application/json")], body := none }
    (by decide) "tok"
  exact ⟨H.1, H.2.1, H.2.2.1, H.2.2.2.1⟩

/-- C6: `toURLWithEndingSlash` parses the base endpoint, fails exactly when
parsing fails, and otherwise appends `/` to the path iff the path did not
already end in `/`; and every request `NewRequest` builds has as its
absolute URL the relative reference resolved against the client's base
URL by the standard resolution algorithm (`ResolveReference`). -/
theorem claim_C6 (u : String) :
    (∀ e, urlParse u = .error e → toURLWithEndingSlash u = .error e)
    ∧ (∀ base, urlParse u = .ok base →
        toURLWithEndingSlash u
          = .ok (if hasEndingSlash base.path then base
                 else { base with path := base.path ++ "/" }))
    ∧ (∀ (c : ClientStruct) (method : String) (b : Option Json) (req : HttpRequest),
        NewRequest c method u b = .ok req →
        ∃ refURL, urlParse u = .ok refURL
          ∧ req.url = urlString (resolveReference c.baseURL refURL)) := by
  refine ⟨?_, ?_, ?_⟩
  · intro e he
    unfold toURLWithEndingSlash
    rw [he]
  · intro base hb
    simp only [toURLWithEndingSlash, hb]
    by_cases hs : hasEndingSlash base.path
    · rw [if_pos hs, if_neg (not_not_intro hs)]
    · rw [if_neg hs, if_pos hs]
  · intro c method b req h
    obtain ⟨refURL, h1, h2⟩ := NewRequest_ok_elim h
    exact ⟨refURL, h1, by rw [h2]⟩

set_option maxHeartbeats 1600000 in
/-- Witness for C6: a base without a trailing slash gains one, a malformed
base propagates the parse error, and the `GET api` request resolves to the
base joined with the relative path. -/
theorem claim_C6_witness :
    toURLWithEndingSlash "https://api.example.com/v2"
      = .ok { scheme := "https", opaquePart := "", host := "api.example.com",
              path := "/v2/", rawQuery := "", fragment := "" }
    ∧ toURLWithEndingSlash "%zz" = .error "invalid URL escape"
    ∧ ∃ refURL, urlParse "api" = .ok refURL
        ∧ ("https://api.utho.com/v2/api" : String)
          = urlString (resolveReference (defaultClient "tok").baseURL refURL) := by
  refine ⟨?_, ?_, ?_⟩
  · exact (claim_C6 "https://api.example.com/v2").2.1
      { scheme := "https", opaquePart := "", host := "api.example.com",
        path := "/v2", rawQuery := "", fragment := "" } (by decide)
  · exact (claim_C6 "%zz").1 "invalid URL escape" (by decide)
  · exact (claim_C6 "api").2.2 (defaultClient "tok") "GET" none
      { method := "GET", url := "https://api.utho.com/v2/api",
        headers := [("Content-Type", "application/json"),
          ("Accept-Encoding", "application/json")], body := none } (by decide)

/-- C7: for every JSON payload handed to `NewRequest`, the encoded request
body decodes back to the payload, and because HTML-escaping is disabled
the characters `<`, `>`, `&` are written verbatim by the encoder — one
such character in a string field appears as itself in the encoded value. -/
theorem claim_C7 {c : ClientStruct} {method u : String} (j : Json) {req : HttpRequest}
    (h : NewRequest c method u (some j) = .ok req) :
    (∃ s, req.body = some s ∧ parseJson s = some j)
    ∧ (∀ ch : Char, ch = '<' ∨ ch = '>' ∨ ch = '&' → encChar false ch = [ch])
    ∧ (∀ (s : String) (ch : Char), ch = '<' ∨ ch = '>' ∨ ch = '&' → ch ∈ s.data →
        ch ∈ encVal false (.str s)) := by
  obtain ⟨refURL, h1, h2⟩ := NewRequest_ok_elim h
  refine ⟨⟨String.mk (encVal false j) ++ "\n", by rw [h2]; rfl, parseJson_encVal false j⟩, ?_, ?_⟩
  · intro ch hch
    rcases hch with rfl | rfl | rfl <;> decide
  · intro s ch hch hmem
    have he : encChar false ch = [ch] := by rcases hch with rfl | rfl | rfl <;> decide
    show ch ∈ encString false s
    unfold encString
    refine List.mem_cons_of_mem _ (List.mem_append_left _ ?_)
    exact List.mem_flatMap.mpr ⟨ch, hmem, by rw [he]; exact List.mem_singleton_self ch⟩

set_option maxHeartbeats 1600000 in
/-- Witness for C7 at the payload `\x7b"name":"a<b&c>d"\x7d` posted to
`api/generate`. -/
theorem claim_C7_witness :
    (∃ s, (some ("\x7b\"name\":\"a<b&c>d\"\x7d" ++ "\n") : Option String) = some s
      ∧ parseJson s = some (.obj (.cons "name" (.str "a<b&c>d") .nil)))
    ∧ encChar false '<' = ['<']
    ∧ '<' ∈ encVal false (.str "a<b&c>d") := by
  have H := @claim_C7 (defaultClient "tok") "POST" "api/generate"
    (.obj (.cons "name" (.str "a<b&c>d") .nil))
    { method := "POST", url := "https://api.utho.com/v2/api/generate",
      headers := [("Content-Type", "application/json"),
        ("Accept-Encoding", "application/json")],
      body := some ("\x7b\"name\":\"a<b&c>d\"\x7d" ++ "\n") }
    (by decide)
  exact ⟨H.1, H.2.1 '<' (Or.inl rfl), H.2.2 "a<b&c>d" '<' (Or.inl rfl) (by decide)⟩

/-- Counterexample to C8's final clause: a success-band response with an
empty body and a supplied decode target does NOT yield "no error" — the
`resp.Body != nil` guard in `Do` tests the reader, which is never nil, so
the empty body reaches `json.Unmarshal`, which rejects it, and the call
returns a decode error. -/
theorem claim_C8_counterexample :
    Do "tok" (some { method := "GET", url := "https://api.utho.com/v2/api",
                     headers := [("Content-Type", "application/json"),
                       ("Accept-Encoding", "application/json")], body := none })
      (fun _ => some { statusCode := 200, headers := [], body := "" })
      (some (decodeVia fromJsonCreateApiKeyResponse))
      = .decodeError := by
  decide

/-- C8 (amended): for every success-band response with a supplied decode
target, the body is always parsed (the nilness guard is on the body
reader, never nil, not on the content); a parse failure — including on an
empty body, which is not valid JSON — is returned as a decode error even
though the HTTP layer succeeded, and a parse success populates the
target. -/
theorem claim_C8 {α : Type} (token : String) (req : HttpRequest) (resp : HttpResponse)
    (hband : 200 ≤ resp.statusCode ∧ resp.statusCode < 400) :
    (∀ (decode : String → Option α) (v : α), decode resp.body = some v →
      Do token (some req) (fun _ => some resp) (some decode) = .success (some v))
    ∧ (∀ decode : String → Option α, decode resp.body = none →
      Do token (some req) (fun _ => some resp) (some decode) = .decodeError)
    ∧ (resp.body = "" → ∀ f : Json → Option α,
      Do token (some req) (fun _ => some resp) (some (decodeVia f)) = .decodeError) := by
  refine ⟨?_, ?_, ?_⟩
  · intro decode v hv
    exact Do_success token req resp decode hband hv
  · intro decode hv
    exact Do_decodeError token req resp decode hband hv
  · intro hb f
    refine Do_decodeError token req resp _ hband ?_
    rw [hb]
    rfl

/-- Witness for C8 at a decodable body and a non-JSON body. -/
theorem claim_C8_witness :
    Do "tok" (some { method := "GET", url := "u", headers := [], body := none })
      (fun _ => some { statusCode := 200, headers := [], body := "\x7b\"message\":\"hi\"\x7d" })
      (some (decodeVia fromJsonDeleteResponse)) = .success (some ⟨"", "hi"⟩)
    ∧ Do "tok" (some { method := "GET", url := "u", headers := [], body := none })
      (fun _ => some { statusCode := 200, headers := [], body := "not json" })
      (some (decodeVia fromJsonDeleteResponse)) = .decodeError := by
  refine ⟨(claim_C8 "tok" { method := "GET", url := "u", headers := [], body := none }
      { statusCode := 200, headers := [], body := "\x7b\"message\":\"hi\"\x7d" } (by decide)).1
      (decodeVia fromJsonDeleteResponse) ⟨"", "hi"⟩ (by decide),
    (claim_C8 "tok" { method := "GET", url := "u", headers := [], body := none }
      { statusCode := 200, headers := [], body := "not json" } (by decide)).2.1
      (decodeVia fromJsonDeleteResponse) (by decide)⟩
